import Mathlib

set_option linter.unusedVariables false

/-! Shallow embedding of the work-unit planning core of the repository
(`nemo_skills/pipeline/generate.py`, `nemo_skills/pipeline/eval.py`) and of the
local sandbox server (`local_sandbox_server.py`), with proofs about marker
naming, completion probing, pipeline composition and job batching. -/

/-! ### Decimal rendering of naturals (model of Python `str(n)` and f-string formatting) -/

/-- Fuel-driven decimal digit expansion; structural recursion so that it reduces
in the kernel on concrete inputs. -/
def digsAux : Nat → Nat → List Char
  | 0, _ => []
  | fuel + 1, n =>
    if n < 10 then [Nat.digitChar n]
    else digsAux fuel (n / 10) ++ [Nat.digitChar (n % 10)]

/-- Decimal digit characters of `n`, most significant first: model of Python
`str(n)` for a nonnegative integer. -/
def digs (n : Nat) : List Char := digsAux (n + 1) n

/-- Model of Python `str(n)` as a Lean string. -/
def natStr (n : Nat) : String := ⟨digs n⟩

theorem digsAux_congr : ∀ (n f1 f2 : Nat), n < f1 → n < f2 → digsAux f1 n = digsAux f2 n := by
  intro n
  induction n using Nat.strong_induction_on with
  | _ n ih =>
    intro f1 f2 h1 h2
    match f1, f2 with
    | 0, _ => omega
    | _, 0 => omega
    | k + 1, m + 1 =>
      simp only [digsAux]
      by_cases h : n < 10
      · simp [h]
      · have hd : n / 10 < n := Nat.div_lt_self (by omega) (by omega)
        simp only [if_neg h]
        rw [ih (n / 10) hd k m (by omega) (by omega)]

theorem digs_lt (n : Nat) (h : n < 10) : digs n = [Nat.digitChar n] := by
  simp [digs, digsAux, h]

theorem digs_ge (n : Nat) (h : 10 ≤ n) : digs n = digs (n / 10) ++ [Nat.digitChar (n % 10)] := by
  have hd : n / 10 < n := Nat.div_lt_self (by omega) (by omega)
  have h1 : digs n = digsAux n (n / 10) ++ [Nat.digitChar (n % 10)] := by
    simp only [digs, digsAux, if_neg (by omega : ¬ n < 10)]
  rw [h1, digsAux_congr (n / 10) n (n / 10 + 1) hd (by omega)]
  rfl

theorem digitChar_isDigit (d : Nat) (h : d < 10) : (Nat.digitChar d).isDigit = true := by
  interval_cases d <;> decide

theorem digitChar_toNat (d : Nat) (h : d < 10) : (Nat.digitChar d).toNat - 48 = d := by
  interval_cases d <;> decide

theorem digs_all_digit (n : Nat) : ∀ c ∈ digs n, c.isDigit = true := by
  induction n using Nat.strong_induction_on with
  | _ n ih =>
    by_cases h : n < 10
    · rw [digs_lt n h]
      intro c hc
      simp only [List.mem_singleton] at hc
      subst hc
      exact digitChar_isDigit n h
    · rw [digs_ge n (by omega)]
      intro c hc
      rcases List.mem_append.mp hc with hc | hc
      · exact ih (n / 10) (Nat.div_lt_self (by omega) (by omega)) c hc
      · simp only [List.mem_singleton] at hc
        subst hc
        exact digitChar_isDigit (n % 10) (Nat.mod_lt n (by omega))

theorem digs_ne_nil (n : Nat) : digs n ≠ [] := by
  by_cases h : n < 10
  · rw [digs_lt n h]; simp
  · rw [digs_ge n (by omega)]; simp

/-- Decoding accumulator lemma: folding the decimal-digit characters of `n` onto
accumulator `a` yields `a * 10 ^ (number of digits) + n`. -/
theorem foldl_digs (n : Nat) : ∀ a : Nat,
    (digs n).foldl (fun a c => a * 10 + (c.toNat - 48)) a = a * 10 ^ (digs n).length + n := by
  induction n using Nat.strong_induction_on with
  | _ n ih =>
    intro a
    by_cases h : n < 10
    · rw [digs_lt n h]
      simp [digitChar_toNat n h]
    · rw [digs_ge n (by omega)]
      rw [List.foldl_append]
      rw [ih (n / 10) (Nat.div_lt_self (by omega) (by omega)) a]
      simp only [List.foldl_cons, List.foldl_nil, List.length_append, List.length_singleton]
      rw [digitChar_toNat (n % 10) (Nat.mod_lt n (by omega))]
      have : a * 10 ^ ((digs (n / 10)).length + 1) = a * 10 ^ (digs (n / 10)).length * 10 := by
        ring
      rw [this, Nat.add_mul, Nat.add_assoc]
      congr 1
      omega

theorem decode_digs (n : Nat) :
    (digs n).foldl (fun a c => a * 10 + (c.toNat - 48)) 0 = n := by
  rw [foldl_digs n 0]; simp

theorem digs_injective : Function.Injective digs := by
  intro m n h
  have := decode_digs m
  rw [h, decode_digs n] at this
  omega

theorem natStr_injective : Function.Injective natStr := by
  intro m n h
  exact digs_injective (congrArg String.data h)

/-! ### Generic list-splitting lemmas used for marker-path parsing and injectivity -/

/-- If two lists of `P`-characters are each followed by a non-`P` character, equality
of the concatenations forces equality componentwise. -/
theorem append_sep_inj (P : Char → Bool) :
    ∀ (a b u v : List Char) (x y : Char), (∀ c ∈ a, P c = true) → (∀ c ∈ b, P c = true) →
      P x = false → P y = false → a ++ x :: u = b ++ y :: v → a = b ∧ x = y ∧ u = v := by
  intro a
  induction a with
  | nil =>
    intro b u v x y _ hb hx hy h
    cases b with
    | nil =>
      simp only [List.nil_append, List.cons.injEq] at h
      exact ⟨rfl, h.1, h.2⟩
    | cons d b' =>
      simp only [List.nil_append, List.cons_append, List.cons.injEq] at h
      have : P d = true := hb d (by simp)
      rw [← h.1] at this
      rw [hx] at this
      cases this
  | cons c a' iha =>
    intro b u v x y ha hb hx hy h
    cases b with
    | nil =>
      simp only [List.cons_append, List.nil_append, List.cons.injEq] at h
      have : P c = true := ha c (by simp)
      rw [h.1] at this
      rw [hy] at this
      cases this
    | cons d b' =>
      simp only [List.cons_append, List.cons.injEq] at h
      obtain ⟨hcd, hrest⟩ := h
      obtain ⟨h1, h2, h3⟩ := iha b' u v x y (fun e he => ha e (by simp [he]))
        (fun e he => hb e (by simp [he])) hx hy hrest
      exact ⟨by rw [hcd, h1], h2, h3⟩

theorem digs_colon_free (n : Nat) : ∀ c ∈ digs n, c ≠ ':' := by
  intro c hc he
  have := digs_all_digit n c hc
  rw [he] at this
  cases this

/-- Splitting a character list on a separator, model of Python `str.split(sep)`. -/
def splitChar (sep : Char) : List Char → List (List Char)
  | [] => [[]]
  | c :: rest =>
    if c = sep then [] :: splitChar sep rest
    else
      match splitChar sep rest with
      | [] => [[c]]
      | h :: t => (c :: h) :: t

theorem splitChar_ne_nil (sep : Char) : ∀ l, splitChar sep l ≠ [] := by
  intro l
  induction l with
  | nil => simp [splitChar]
  | cons c rest ih =>
    simp only [splitChar]
    by_cases h : c = sep
    · simp [h]
    · simp only [if_neg h]
      cases hs : splitChar sep rest with
      | nil => simp
      | cons a t => simp

/-- A separator-free list splits to itself. -/
theorem splitChar_of_free (sep : Char) :
    ∀ l : List Char, (∀ c ∈ l, c ≠ sep) → splitChar sep l = [l] := by
  intro l
  induction l with
  | nil => simp [splitChar]
  | cons c rest ih =>
    intro h
    have hc : c ≠ sep := h c (by simp)
    simp only [splitChar, if_neg hc]
    rw [ih (fun d hd => h d (by simp [hd]))]

/-- Splitting a list that starts with a separator-free block followed by the separator. -/
theorem splitChar_append (sep : Char) :
    ∀ (l r : List Char), (∀ c ∈ l, c ≠ sep) →
      splitChar sep (l ++ sep :: r) = l :: splitChar sep r := by
  intro l
  induction l with
  | nil =>
    intro r _
    simp [splitChar]
  | cons c rest ih =>
    intro r h
    have hc : c ≠ sep := h c (by simp)
    simp only [List.cons_append, splitChar, if_neg hc]
    rw [List.append_eq, ih r (fun d hd => h d (by simp [hd]))]

/-! ### Marker and output path construction (from `generate.py`) -/

/-- Model of `os.path.join(a, b)` for the relative second components the source passes. -/
def osPathJoin (a b : String) : String :=
  if a = "" then b
  else if a.data.getLast? = some '/' then a ++ b
  else a ++ "/" ++ b

/-- Model of Python `filename.rsplit(".", 1)` for a string containing a dot: splits at
the last dot. On a dot-free string the source would raise `ValueError`; we return an
empty extension instead (unreachable at the call sites, which always pass `*.jsonl`). -/
def rsplitDot (s : String) : String × String :=
  match (s.data.reverse).span (fun c => c ≠ '.') with
  | (_, []) => (s, "")
  | (extRev, _ :: baseRev) => (⟨baseRev.reverse⟩, ⟨extRev.reverse⟩)

/-- Modelled from the spec: `get_chunked_filename` lives in `nemo_skills/utils.py`,
which is not under `src/`. Following the naming scheme in the spec and in the
docstring of `get_chunked_rs_filename` (`{output_prefix}[-rsSEED][-chunkK].jsonl`),
it inserts `-chunk{chunk_id}` in front of the filename's extension. -/
def get_chunked_filename (chunk_id : Nat) (filename : String) : String :=
  let p := rsplitDot filename
  p.1 ++ "-chunk" ++ natStr chunk_id ++ "." ++ p.2

/-- The `{output_prefix}[-rsSEED].jsonl` base filename computed at the top of
`get_chunked_rs_filename`. -/
def rsFilenameBase ( output_prefix : String) (random_seed : Option Nat) : String :=
  match random_seed with
  | some s => output_prefix ++ "-rs" ++ natStr s ++ ".jsonl"
  | none => output_prefix ++ ".jsonl"

/-- Embedding of `generate.get_chunked_rs_filename`: returns
`{output_dir}/{output_prefix}[-rsSEED][-chunkK].jsonl`. -/
def get_chunked_rs_filename (output_dir : String) (random_seed : Option Nat)
    (chunk_id : Option Nat) ( output_prefix : String) : String :=
  let base_filename := rsFilenameBase output_prefix random_seed
  let base_filename :=
    match chunk_id with
    | some c => get_chunked_filename c base_filename
    | none => base_filename
  osPathJoin output_dir base_filename

/-- The `.done` completion-marker path of the `(seed, chunk)` work unit, as built by
`get_expected_done_files`. -/
def markerDone (output_dir output_prefix : String) (s c : Option Nat) : String :=
  get_chunked_rs_filename output_dir s c output_prefix ++ ".done"

/-- Embedding of `generate.get_expected_done_files`: mapping from `(seed, chunk_id)`
to expected `.done` file paths. The Python dict is modelled as an association list in
insertion order; the planner always passes duplicate-free seed/chunk lists, on which
the two representations agree. -/
def get_expected_done_files (output_dir : String) (random_seeds chunk_ids : List (Option Nat))
    ( output_prefix : String) : List ((Option Nat × Option Nat) × String) :=
  random_seeds.flatMap (fun s =>
    chunk_ids.map (fun c => ((s, c), markerDone output_dir output_prefix s c)))

/-! ### Normal form of marker paths, and injectivity of the naming scheme -/

/-- The `[-rsSEED]` segment of a marker filename. -/
def seedPart : Option Nat → List Char
  | none => []
  | some v => '-' :: 'r' :: 's' :: digs v

/-- The `[-chunkK]` segment of a marker filename. -/
def chunkPart : Option Nat → List Char
  | none => []
  | some k => '-' :: 'c' :: 'h' :: 'u' :: 'n' :: 'k' :: digs k

/-- The characters of `.jsonl`. -/
def jsonlChars : List Char := '.' :: 'j' :: 's' :: 'o' :: 'n' :: 'l' :: []

/-- The trailing `.jsonl.done` characters of a marker path. -/
def jsonlDone : List Char :=
  '.' :: 'j' :: 's' :: 'o' :: 'n' :: 'l' :: '.' :: 'd' :: 'o' :: 'n' :: 'e' :: []

/-- The seed/chunk-independent leading characters contributed by the output directory. -/
def joinHeadDir (output_dir : String) : List Char :=
  if output_dir = "" then []
  else if output_dir.data.getLast? = some '/' then output_dir.data
  else output_dir.data ++ ['/']

theorem osPathJoin_data (a b : String) : (osPathJoin a b).data = joinHeadDir a ++ b.data := by
  simp only [osPathJoin, joinHeadDir]
  by_cases h0 : a = "" <;> by_cases h1 : a.data.getLast? = some '/' <;> simp [h0, h1]

theorem takeWhile_block (p : Char → Bool) :
    ∀ (l r : List Char) (x : Char), (∀ c ∈ l, p c = true) → p x = false →
      (l ++ x :: r).takeWhile p = l ∧ (l ++ x :: r).dropWhile p = x :: r := by
  intro l
  induction l with
  | nil =>
    intro r x _ hx
    simp [List.takeWhile_cons, List.dropWhile_cons, hx]
  | cons c cs ih =>
    intro r x h hx
    have hc : p c = true := h c (by simp)
    obtain ⟨h1, h2⟩ := ih r x (fun d hd => h d (by simp [hd])) hx
    simp only [List.cons_append, List.takeWhile_cons, List.dropWhile_cons, hc]
    simp [h1, h2]

theorem rsplitDot_jsonl (p : List Char) :
    rsplitDot ⟨p ++ jsonlChars⟩ = (⟨p⟩, ⟨'j' :: 's' :: 'o' :: 'n' :: 'l' :: []⟩) := by
  have hrev : (p ++ jsonlChars).reverse
      = ('l' :: 'n' :: 'o' :: 's' :: 'j' :: []) ++ '.' :: p.reverse := by
    simp [jsonlChars]
  obtain ⟨h1, h2⟩ := takeWhile_block (fun c => decide (c ≠ '.'))
    ('l' :: 'n' :: 'o' :: 's' :: 'j' :: []) p.reverse '.' (by decide) (by simp)
  simp only [rsplitDot, List.span_eq_take_drop]
  rw [hrev, h1, h2]
  simp

theorem rsFilenameBase_data ( output_prefix : String) (s : Option Nat) :
    (rsFilenameBase output_prefix s).data = output_prefix.data ++ (seedPart s ++ jsonlChars) := by
  cases s with
  | none =>
    simp [rsFilenameBase, seedPart, jsonlChars]
  | some v =>
    simp [rsFilenameBase, seedPart, jsonlChars, natStr]

theorem get_chunked_filename_data (k : Nat) (b : String) (p : List Char)
    (hb : b.data = p ++ jsonlChars) :
    (get_chunked_filename k b).data = p ++ (chunkPart (some k) ++ jsonlChars) := by
  have hb' : b = ⟨p ++ jsonlChars⟩ := congrArg String.mk hb
  subst hb'
  simp only [get_chunked_filename, rsplitDot_jsonl]
  simp [chunkPart, jsonlChars, natStr]

theorem markerDone_data (output_dir output_prefix : String) (s c : Option Nat) :
    (markerDone output_dir output_prefix s c).data
      = (joinHeadDir output_dir ++ output_prefix.data)
          ++ (seedPart s ++ (chunkPart c ++ jsonlDone)) := by
  have hjd : jsonlDone = jsonlChars ++ ('.' :: 'd' :: 'o' :: 'n' :: 'e' :: []) := rfl
  cases c with
  | none =>
    show ((osPathJoin output_dir (rsFilenameBase output_prefix s)) ++ ".done").data = _
    rw [String.data_append, osPathJoin_data, rsFilenameBase_data]
    simp [chunkPart, hjd]
  | some k =>
    show ((osPathJoin output_dir
      (get_chunked_filename k (rsFilenameBase output_prefix s))) ++ ".done").data = _
    rw [String.data_append, osPathJoin_data,
      get_chunked_filename_data k _ ( output_prefix.data ++ seedPart s)
        (by rw [rsFilenameBase_data]; simp)]
    simp [hjd]

theorem markerTail_inj (s c s' c' : Option Nat)
    (h : seedPart s ++ (chunkPart c ++ jsonlDone) = seedPart s' ++ (chunkPart c' ++ jsonlDone)) :
    s = s' ∧ c = c' := by
  have hdotd : Char.isDigit '.' = false := by decide
  have hdashd : Char.isDigit '-' = false := by decide
  cases s with
  | none =>
    cases s' with
    | none =>
      cases c with
      | none =>
        cases c' with
        | none => exact ⟨rfl, rfl⟩
        | some k' =>
          simp only [seedPart, chunkPart, jsonlDone, List.cons_append, List.nil_append,
            List.cons.injEq] at h
          exact absurd h.1 (by decide)
      | some k =>
        cases c' with
        | none =>
          simp only [seedPart, chunkPart, jsonlDone, List.cons_append, List.nil_append,
            List.cons.injEq] at h
          exact absurd h.1 (by decide)
        | some k' =>
          simp only [seedPart, chunkPart, jsonlDone, List.cons_append, List.nil_append,
            List.cons.injEq, eq_self_iff_true, true_and] at h
          obtain ⟨h1, -, -⟩ := append_sep_inj Char.isDigit (digs k) (digs k') _ _ '.' '.'
            (digs_all_digit k) (digs_all_digit k') hdotd hdotd h
          exact ⟨rfl, congrArg some (digs_injective h1)⟩
    | some v' =>
      cases c with
      | none =>
        simp only [seedPart, chunkPart, jsonlDone, List.cons_append, List.nil_append,
          List.cons.injEq] at h
        exact absurd h.1 (by decide)
      | some k =>
        simp only [seedPart, chunkPart, jsonlDone, List.cons_append, List.nil_append,
          List.cons.injEq, eq_self_iff_true, true_and] at h
        exact absurd h.1 (by decide)
  | some v =>
    cases s' with
    | none =>
      cases c' with
      | none =>
        simp only [seedPart, chunkPart, jsonlDone, List.cons_append, List.nil_append,
          List.cons.injEq] at h
        exact absurd h.1 (by decide)
      | some k' =>
        simp only [seedPart, chunkPart, jsonlDone, List.cons_append, List.nil_append,
          List.cons.injEq, eq_self_iff_true, true_and] at h
        exact absurd h.1 (by decide)
    | some v' =>
      simp only [seedPart, List.cons_append, List.cons.injEq, eq_self_iff_true, true_and] at h
      cases c with
      | none =>
        cases c' with
        | none =>
          simp only [chunkPart, jsonlDone, List.nil_append] at h
          obtain ⟨h1, -, -⟩ := append_sep_inj Char.isDigit (digs v) (digs v') _ _ '.' '.'
            (digs_all_digit v) (digs_all_digit v') hdotd hdotd h
          exact ⟨congrArg some (digs_injective h1), rfl⟩
        | some k' =>
          simp only [chunkPart, jsonlDone, List.nil_append, List.cons_append] at h
          obtain ⟨-, h2, -⟩ := append_sep_inj Char.isDigit (digs v) (digs v') _ _ '.' '-'
            (digs_all_digit v) (digs_all_digit v') hdotd hdashd h
          exact absurd h2 (by decide)
      | some k =>
        cases c' with
        | none =>
          simp only [chunkPart, jsonlDone, List.nil_append, List.cons_append] at h
          obtain ⟨-, h2, -⟩ := append_sep_inj Char.isDigit (digs v) (digs v') _ _ '-' '.'
            (digs_all_digit v) (digs_all_digit v') hdashd hdotd h
          exact absurd h2 (by decide)
        | some k' =>
          simp only [chunkPart, jsonlDone, List.nil_append, List.cons_append] at h
          obtain ⟨h1, -, h3⟩ := append_sep_inj Char.isDigit (digs v) (digs v') _ _ '-' '-'
            (digs_all_digit v) (digs_all_digit v') hdashd hdashd h
          simp only [List.cons.injEq, eq_self_iff_true, true_and] at h3
          obtain ⟨h4, -, -⟩ := append_sep_inj Char.isDigit (digs k) (digs k') _ _ '.' '.'
            (digs_all_digit k) (digs_all_digit k') hdotd hdotd h3
          exact ⟨congrArg some (digs_injective h1), congrArg some (digs_injective h4)⟩

theorem markerDone_inj (output_dir output_prefix : String) (s c s' c' : Option Nat)
    (h : (s, c) ≠ (s', c')) :
    markerDone output_dir output_prefix s c ≠ markerDone output_dir output_prefix s' c' := by
  intro he
  have hd := congrArg String.data he
  rw [markerDone_data, markerDone_data] at hd
  obtain ⟨h1, h2⟩ := markerTail_inj s c s' c' (List.append_cancel_left hd)
  exact h (by rw [h1, h2])

/-- C2: for a fixed output location and output prefix, the marker-path function is
injective: entries of `get_expected_done_files` with different `(seed, chunk)` keys
have different `.done` paths, and each entry's path follows the
`{output_prefix}[-rs{seed}][-chunk{chunk}].jsonl.done` naming scheme. -/
theorem expected_done_files_injective (output_dir output_prefix : String)
    (random_seeds chunk_ids : List (Option Nat))
    (e1 e2 : (Option Nat × Option Nat) × String)
    (h1 : e1 ∈ get_expected_done_files output_dir random_seeds chunk_ids output_prefix)
    (h2 : e2 ∈ get_expected_done_files output_dir random_seeds chunk_ids output_prefix)
    (hne : e1.1 ≠ e2.1) :
    e1.2 ≠ e2.2 ∧ e1.2 = markerDone output_dir output_prefix e1.1.1 e1.1.2 := by
  simp only [get_expected_done_files, List.mem_flatMap, List.mem_map] at h1 h2
  obtain ⟨s1, -, c1, -, he1⟩ := h1
  obtain ⟨s2, -, c2, -, he2⟩ := h2
  subst he1
  subst he2
  exact ⟨markerDone_inj output_dir output_prefix s1 c1 s2 c2 hne, rfl⟩

theorem expected_done_files_injective_witness :
    (((none, none), markerDone "/out" "output" none none)
        ∈ get_expected_done_files "/out" [none, some 0] [none] "output")
    ∧ (((some 0, none), markerDone "/out" "output" (some 0) none)
        ∈ get_expected_done_files "/out" [none, some 0] [none] "output")
    ∧ (((none, none) : Option Nat × Option Nat) ≠ (some 0, none))
    ∧ markerDone "/out" "output" none none ≠ markerDone "/out" "output" (some 0) none := by
  refine ⟨by decide, by decide, by decide, ?_⟩
  exact (expected_done_files_injective "/out" "output" [none, some 0] [none]
    ((none, none), markerDone "/out" "output" none none)
    ((some 0, none), markerDone "/out" "output" (some 0) none)
    (by decide) (by decide) (by decide)).1

/-! ### Completion probe (from `generate.get_remaining_jobs`) -/

/-- Rendering of a seed or chunk id inside a probe token:
`"NONE" if x is None else str(x)`. -/
def optIdStr : Option Nat → String
  | none => "NONE"
  | some v => natStr v

/-- The tagged token `MISSING:<seed-or-NONE>:<chunk-or-NONE>` echoed by a probe line. -/
def mkMissingMsg (s c : Option Nat) : String :=
  "MISSING:" ++ optIdStr s ++ ":" ++ optIdStr c

/-- One existence-check command of the probe: the (unmounted) marker path it tests
and the token it echoes when the file is absent. -/
structure CheckCmd where
  path : String
  msg : String
deriving DecidableEq, Repr

/-- The shell text of a check command, as interpolated by the source. -/
def renderCheckCmd (c : CheckCmd) : String :=
  "if [ ! -f \x22" ++ c.path ++ "\x22 ]; then echo \x22" ++ c.msg ++ "\x22; fi"

/-- The probe's check commands, one per expected `.done` file, in insertion order.
`unmount` models `get_unmounted_path`/`str.replace` (in `pipeline/utils.py`, not under
`src/`): the translation of a mounted marker path to the probed filesystem path. -/
def checkCommandsOf (unmount : String → String)
    (expected : List ((Option Nat × Option Nat) × String)) : List CheckCmd :=
  expected.map (fun e => ⟨unmount e.2, mkMissingMsg e.1.1 e.1.2⟩)

/-- Shell semantics of one existence check against file system `fs` (the set of
existing paths): silent when the marker exists, echoes the token when missing. -/
def runCheck (fs : String → Bool) (c : CheckCmd) : List String :=
  if fs c.path then [] else [c.msg]

/-- The source's grouping `check_commands[i : i + 16]` for `i in range(0, len, 16)`. -/
def probeGroups16 (cmds : List CheckCmd) : List (List CheckCmd) :=
  (List.range ((cmds.length + 15) / 16)).map (fun g => (cmds.drop (g * 16)).take 16)

/-- The probe's remote invocations: commands are split into groups of sixteen only
when more than sixteen random seeds were requested, else one invocation runs all. -/
def probeBatches (numSeeds : Nat) (cmds : List CheckCmd) : List (List CheckCmd) :=
  if 16 < numSeeds then probeGroups16 cmds else [cmds]

/-- The probe output visible to the parser: per-invocation stdout lines, with the
batch outputs concatenated in batch order (the source's `"\n".join(outputs)`). -/
def probeOutputLines (fs : String → Bool) (numSeeds : Nat) (cmds : List CheckCmd) :
    List String :=
  ((probeBatches numSeeds cmds).map (fun g => g.flatMap (runCheck fs))).flatten

/-- Model of Python `line.startswith(p)`. -/
def strStartsWith (s p : String) : Bool := p.data.isPrefixOf s.data

/-- Model of Python `int(s)` on a decimal-digit string. -/
def pyInt (s : String) : Nat := s.data.foldl (fun a c => a * 10 + (c.toNat - 48)) 0

/-- Parsing a probe token field: `None if s == "NONE" else int(s)`. -/
def parseIdStr (s : String) : Option Nat := if s = "NONE" then none else some (pyInt s)

/-- Model of Python `line.split(":")`. -/
def pySplitColon (s : String) : List String := (splitChar ':' s.data).map (fun l => ⟨l⟩)

/-- The `defaultdict(list)` append `missing_jobs[seed].append(chunk)`. -/
def addMissing : List (Option Nat × List (Option Nat)) → Option Nat → Option Nat →
    List (Option Nat × List (Option Nat))
  | [], s, c => [(s, [c])]
  | (k, v) :: rest, s, c =>
    if k = s then (k, v ++ [c]) :: rest else (k, v) :: addMissing rest s c

/-- One iteration of the source's parsing loop over `output.splitlines()`. Lines not
of the three-field `MISSING:...` shape never occur in generated probe output (the
source would raise on them); they are skipped here. -/
def parseLineStep (m : List (Option Nat × List (Option Nat))) (line : String) :
    List (Option Nat × List (Option Nat)) :=
  if strStartsWith line "MISSING:" then
    match pySplitColon line with
    | [_, seed_str, chunk_str] => addMissing m (parseIdStr seed_str) (parseIdStr chunk_str)
    | _ => m
  else m

/-- Parsing the probe output back into the `seed -> [missing chunk ids]` mapping. -/
def parseMissingLines (lines : List String) : List (Option Nat × List (Option Nat)) :=
  lines.foldl parseLineStep []

/-- Reading `missing_jobs[seed]` on a `defaultdict(list)`: a miss inserts an empty
entry (this happens in the source's done-jobs summary loop). -/
def defaultdictRead (m : List (Option Nat × List (Option Nat))) (s : Option Nat) :
    List (Option Nat × List (Option Nat)) :=
  if m.any (fun p => decide (p.1 = s)) then m else m ++ [(s, [])]

/-- Value of key `s` in the missing mapping (`[]` when absent, as for a fresh
defaultdict entry). -/
def lookupSeed (m : List (Option Nat × List (Option Nat))) (s : Option Nat) :
    List (Option Nat) :=
  ((m.find? (fun p => decide (p.1 = s))).map (fun p => p.2)).getD []

/-- Embedding of `generate.get_remaining_jobs`. `fs` is the probed file system
(existence of unmounted paths); `unmount` models `get_unmounted_path` plus the
source's `str.replace` of the mount point (external to `src/`). The Python
defaultdict is an association list in key-insertion order. -/
def get_remaining_jobs (fs : String → Bool) (unmount : String → String)
    (output_dir : String) (random_seeds chunk_ids : List (Option Nat))
    (rerun_done : Bool) ( output_prefix : String) :
    List (Option Nat × List (Option Nat)) :=
  if rerun_done then random_seeds.map (fun s => (s, chunk_ids))
  else
    let expected := get_expected_done_files output_dir random_seeds chunk_ids output_prefix
    let cmds := checkCommandsOf unmount expected
    let lines := probeOutputLines fs random_seeds.length cmds
    let missing := parseMissingLines lines
    expected.foldl (fun m e => defaultdictRead m e.1.1) missing

theorem probeGroups16_flatten_aux :
    ∀ (n : Nat) (cmds : List CheckCmd), cmds.length ≤ n → (probeGroups16 cmds).flatten = cmds := by
  intro n
  induction n with
  | zero =>
    intro cmds h
    have h0 : cmds = [] := List.eq_nil_of_length_eq_zero (by omega)
    subst h0
    simp [probeGroups16]
  | succ n ih =>
    intro cmds h
    cases cmds with
    | nil => simp [probeGroups16]
    | cons c rest =>
      have hlen : (c :: rest).length = rest.length + 1 := List.length_cons c rest
      have hq : ((c :: rest).length + 15) / 16 = (((c :: rest).length - 16) + 15) / 16 + 1 := by
        have h1 : (c :: rest).length + 15 = ((c :: rest).length - 1) + 16 := by omega
        rw [h1, Nat.add_div_right _ (by omega : (0:Nat) < 16)]
        rcases Nat.lt_or_ge (c :: rest).length 16 with hlt | hge
        · rw [Nat.div_eq_of_lt (by omega), Nat.div_eq_of_lt (by omega)]
        · have h2 : (c :: rest).length - 16 + 15 = (c :: rest).length - 1 := by omega
          rw [h2]
      have hrest : ((c :: rest).drop 16).length = (c :: rest).length - 16 := by
        simp
      simp only [probeGroups16, hq, List.range_succ_eq_map, List.map_cons, List.flatten_cons,
        Nat.zero_mul, List.drop_zero, List.map_map]
      have hmap : ∀ g : Nat, ((c :: rest).drop ((g + 1) * 16)).take 16
          = (((c :: rest).drop 16).drop (g * 16)).take 16 := by
        intro g
        rw [List.drop_drop]
        congr 2
        omega
      have hcomp : (List.range ((((c :: rest).length - 16) + 15) / 16)).map
            ((fun g => ((c :: rest).drop (g * 16)).take 16) ∘ Nat.succ)
          = probeGroups16 ((c :: rest).drop 16) := by
        simp only [probeGroups16, hrest]
        apply List.map_congr_left
        intro g _
        simpa using hmap g
      rw [hcomp, ih ((c :: rest).drop 16) (by rw [hrest]; simp at h ⊢; omega)]
      exact List.take_append_drop 16 (c :: rest)

theorem probeGroups16_flatten (cmds : List CheckCmd) : (probeGroups16 cmds).flatten = cmds :=
  probeGroups16_flatten_aux cmds.length cmds (Nat.le_refl _)

theorem flatten_map_flatMap {α β : Type} (f : α → List β) :
    ∀ gs : List (List α), (gs.map (fun g => g.flatMap f)).flatten = gs.flatten.flatMap f := by
  intro gs
  induction gs with
  | nil => simp
  | cons g gs ih => simp [ih]

theorem probeBatches_flatten (numSeeds : Nat) (cmds : List CheckCmd) :
    (probeBatches numSeeds cmds).flatten = cmds := by
  simp only [probeBatches]
  by_cases h : 16 < numSeeds
  · simp [h, probeGroups16_flatten]
  · simp [h]

theorem probeOutputLines_eq (fs : String → Bool) (numSeeds : Nat) (cmds : List CheckCmd) :
    probeOutputLines fs numSeeds cmds = cmds.flatMap (runCheck fs) := by
  rw [probeOutputLines, flatten_map_flatMap, probeBatches_flatten]

theorem probeGroups16_bound (cmds : List CheckCmd) :
    ∀ g ∈ probeGroups16 cmds, g.length ≤ 16 := by
  intro g hg
  simp only [probeGroups16, List.mem_map] at hg
  obtain ⟨i, -, rfl⟩ := hg
  simp

theorem optIdStr_colon_free (o : Option Nat) : ∀ ch ∈ (optIdStr o).data, ch ≠ ':' := by
  cases o with
  | none =>
    intro ch hch
    have hd : (optIdStr none).data = ('N' :: 'O' :: 'N' :: 'E' :: []) := rfl
    rw [hd] at hch
    have hm : ch = 'N' ∨ ch = 'O' ∨ ch = 'N' ∨ ch = 'E' := by simpa using hch
    rcases hm with rfl | rfl | rfl | rfl <;> decide
  | some v => exact digs_colon_free v

theorem mkMissingMsg_data (s c : Option Nat) :
    (mkMissingMsg s c).data
      = ('M' :: 'I' :: 'S' :: 'S' :: 'I' :: 'N' :: 'G' :: [])
        ++ ':' :: ((optIdStr s).data ++ ':' :: (optIdStr c).data) := by
  have h1 : ("MISSING:" : String).data
      = 'M' :: 'I' :: 'S' :: 'S' :: 'I' :: 'N' :: 'G' :: ':' :: [] := rfl
  have h2 : (":" : String).data = ':' :: [] := rfl
  simp [mkMissingMsg, String.data_append, h1, h2]

theorem parseIdStr_optIdStr (o : Option Nat) : parseIdStr (optIdStr o) = o := by
  cases o with
  | none => decide
  | some v =>
    have hne : optIdStr (some v) ≠ "NONE" := by
      intro h
      have hd : digs v = ('N' :: 'O' :: 'N' :: 'E' :: []) := congrArg String.data h
      have : ('N' : Char) ∈ digs v := by rw [hd]; simp
      have := digs_all_digit v 'N' this
      exact absurd this (by decide)
    simp only [parseIdStr, if_neg hne]
    exact congrArg some (decode_digs v)

theorem pySplitColon_mkMissingMsg (s c : Option Nat) :
    pySplitColon (mkMissingMsg s c) = ["MISSING", optIdStr s, optIdStr c] := by
  simp only [pySplitColon, mkMissingMsg_data]
  rw [splitChar_append ':' ('M' :: 'I' :: 'S' :: 'S' :: 'I' :: 'N' :: 'G' :: []) _ (by decide)]
  rw [splitChar_append ':' ((optIdStr s).data) _ (optIdStr_colon_free s)]
  rw [splitChar_of_free ':' ((optIdStr c).data) (optIdStr_colon_free c)]
  rfl

theorem strStartsWith_mkMissingMsg (s c : Option Nat) :
    strStartsWith (mkMissingMsg s c) "MISSING:" = true := by
  rw [strStartsWith, List.isPrefixOf_iff_prefix]
  exact ⟨(optIdStr s).data ++ ':' :: (optIdStr c).data, by rw [mkMissingMsg_data]; rfl⟩

theorem parseLineStep_msg (m : List (Option Nat × List (Option Nat))) (s c : Option Nat) :
    parseLineStep m (mkMissingMsg s c) = addMissing m s c := by
  rw [parseLineStep, if_pos (strStartsWith_mkMissingMsg s c), pySplitColon_mkMissingMsg]
  simp [parseIdStr_optIdStr]

theorem mkMissingMsg_inj (s c s' c' : Option Nat)
    (h : mkMissingMsg s c = mkMissingMsg s' c') : s = s' ∧ c = c' := by
  have hsplit := congrArg pySplitColon h
  rw [pySplitColon_mkMissingMsg, pySplitColon_mkMissingMsg] at hsplit
  simp only [List.cons.injEq] at hsplit
  obtain ⟨-, hs, hc, -⟩ := hsplit
  constructor
  · rw [← parseIdStr_optIdStr s, ← parseIdStr_optIdStr s', hs]
  · rw [← parseIdStr_optIdStr c, ← parseIdStr_optIdStr c', hc]

theorem lookupSeed_cons (k : Option Nat) (v : List (Option Nat))
    (rest : List (Option Nat × List (Option Nat))) (s : Option Nat) :
    lookupSeed ((k, v) :: rest) s = if k = s then v else lookupSeed rest s := by
  by_cases h : k = s
  · simp [lookupSeed, List.find?_cons, h]
  · simp [lookupSeed, List.find?_cons, h]

theorem lookup_addMissing (m : List (Option Nat × List (Option Nat))) (s' c' s : Option Nat) :
    lookupSeed (addMissing m s' c') s
      = if s = s' then lookupSeed m s ++ [c'] else lookupSeed m s := by
  induction m with
  | nil =>
    by_cases h : s = s'
    · subst h
      simp [addMissing, lookupSeed_cons, lookupSeed]
    · have h' : s' ≠ s := fun he => h he.symm
      simp [addMissing, lookupSeed_cons, h, h', lookupSeed]
  | cons kv rest ih =>
    obtain ⟨k, v⟩ := kv
    by_cases hk : k = s'
    · subst hk
      simp only [addMissing, if_pos rfl]
      by_cases hs : s = k
      · subst hs
        simp [lookupSeed_cons]
      · have hs' : k ≠ s := fun he => hs he.symm
        simp [lookupSeed_cons, hs', if_neg (fun he : s = k => hs he)]
    · simp only [addMissing, if_neg hk]
      by_cases hs : s = k
      · subst hs
        have : s ≠ s' := fun he => hk (he.symm ▸ rfl)
        simp [lookupSeed_cons, this]
      · have hs' : k ≠ s := fun he => hs he.symm
        simp [lookupSeed_cons, hs', ih]

theorem lookup_dread (m : List (Option Nat × List (Option Nat))) (s' s : Option Nat) :
    lookupSeed (defaultdictRead m s') s = lookupSeed m s := by
  by_cases hany : m.any (fun p => decide (p.1 = s')) = true
  · rw [defaultdictRead, if_pos hany]
  · rw [defaultdictRead, if_neg hany]
    rw [lookupSeed, lookupSeed, List.find?_append]
    cases hf : m.find? (fun p => decide (p.1 = s)) with
    | some p => simp
    | none =>
      simp only [Option.none_or]
      by_cases h : s' = s
      · subst h
        have : ¬ ∃ p ∈ m, p.1 = s' := by
          intro ⟨p, hp, he⟩
          exact hany (List.any_eq_true.mpr ⟨p, hp, by simp [he]⟩)
        simp [List.find?_cons]
      · simp [List.find?_cons, h]

theorem lookup_foldl_dread (keys : List (Option Nat)) :
    ∀ (m : List (Option Nat × List (Option Nat))) (s : Option Nat),
      lookupSeed (keys.foldl (fun m k => defaultdictRead m k) m) s = lookupSeed m s := by
  induction keys with
  | nil => intro m s; rfl
  | cons k keys ih =>
    intro m s
    simp only [List.foldl_cons]
    rw [ih, lookup_dread]

theorem mem_lookup_addMissing_fold (P : List (Option Nat × Option Nat)) :
    ∀ (m : List (Option Nat × List (Option Nat))) (s c : Option Nat),
      (c ∈ lookupSeed (P.foldl (fun m p => addMissing m p.1 p.2) m) s
        ↔ c ∈ lookupSeed m s ∨ (s, c) ∈ P) := by
  induction P with
  | nil => simp
  | cons p P' ih =>
    intro m s c
    simp only [List.foldl_cons]
    rw [ih, lookup_addMissing]
    by_cases h : s = p.1
    · rw [if_pos h]
      have hp : ((s, c) = p) ↔ (c = p.2) := by
        rw [Prod.ext_iff]
        simp [h]
      simp only [List.mem_append, List.mem_singleton, List.mem_cons, hp]
      tauto
    · rw [if_neg h]
      have hp : ((s, c) = p) ↔ False := by
        rw [Prod.ext_iff]
        simp [h]
      simp only [List.mem_cons, hp]
      tauto

theorem mem_gedf (output_dir output_prefix : String) (seeds chunks : List (Option Nat))
    (s c : Option Nat) (p : String) :
    (((s, c), p) ∈ get_expected_done_files output_dir seeds chunks output_prefix)
      ↔ (s ∈ seeds ∧ c ∈ chunks ∧ p = markerDone output_dir output_prefix s c) := by
  simp only [get_expected_done_files, List.mem_flatMap, List.mem_map, Prod.mk.injEq]
  constructor
  · rintro ⟨s', hs', c', hc', ⟨⟨rfl, rfl⟩, rfl⟩⟩
    exact ⟨hs', hc', rfl⟩
  · rintro ⟨hs, hc, rfl⟩
    exact ⟨s, hs, c, hc, ⟨⟨rfl, rfl⟩, rfl⟩⟩

theorem gedf_entry_shape (output_dir output_prefix : String) (seeds chunks : List (Option Nat))
    (e : (Option Nat × Option Nat) × String)
    (he : e ∈ get_expected_done_files output_dir seeds chunks output_prefix) :
    e.1.1 ∈ seeds ∧ e.1.2 ∈ chunks ∧ e.2 = markerDone output_dir output_prefix e.1.1 e.1.2 := by
  obtain ⟨⟨s, c⟩, p⟩ := e
  exact (mem_gedf output_dir output_prefix seeds chunks s c p).mp he

theorem probe_lines_eq (fs : String → Bool) (unmount : String → String)
    (output_dir output_prefix : String) (seeds chunks : List (Option Nat)) :
    probeOutputLines fs seeds.length
        (checkCommandsOf unmount (get_expected_done_files output_dir seeds chunks output_prefix))
      = (get_expected_done_files output_dir seeds chunks output_prefix).flatMap
          (fun e => if fs (unmount e.2) then [] else [mkMissingMsg e.1.1 e.1.2]) := by
  rw [probeOutputLines_eq, checkCommandsOf, List.flatMap_map]
  rfl

theorem msg_mem_lines_iff (fs : String → Bool) (unmount : String → String)
    (output_dir output_prefix : String) (seeds chunks : List (Option Nat))
    (s c : Option Nat) (hs : s ∈ seeds) (hc : c ∈ chunks) :
    (mkMissingMsg s c ∈ probeOutputLines fs seeds.length
        (checkCommandsOf unmount (get_expected_done_files output_dir seeds chunks output_prefix)))
      ↔ fs (unmount (markerDone output_dir output_prefix s c)) = false := by
  rw [probe_lines_eq]
  simp only [List.mem_flatMap]
  constructor
  · rintro ⟨e, heE, hmem⟩
    by_cases hfs : fs (unmount e.2) = true
    · rw [if_pos hfs] at hmem
      cases hmem
    · rw [if_neg hfs] at hmem
      simp only [List.mem_singleton] at hmem
      obtain ⟨h1, h2⟩ := mkMissingMsg_inj s c e.1.1 e.1.2 hmem
      obtain ⟨-, -, hshape⟩ := gedf_entry_shape output_dir output_prefix seeds chunks e heE
      rw [hshape, ← h1, ← h2] at hfs
      simpa using hfs
  · intro hfs
    refine ⟨((s, c), markerDone output_dir output_prefix s c),
      (mem_gedf output_dir output_prefix seeds chunks s c _).mpr ⟨hs, hc, rfl⟩, ?_⟩
    simp [hfs]

theorem parse_lines_fold (fs : String → Bool) (unmount : String → String) :
    ∀ (E : List ((Option Nat × Option Nat) × String))
      (m : List (Option Nat × List (Option Nat))),
      (E.flatMap (fun e => if fs (unmount e.2) then [] else [mkMissingMsg e.1.1 e.1.2])).foldl
          parseLineStep m
        = (E.filterMap (fun e => if fs (unmount e.2) then none else some e.1)).foldl
            (fun m p => addMissing m p.1 p.2) m := by
  intro E
  induction E with
  | nil => intro m; rfl
  | cons e E' ih =>
    intro m
    rw [List.flatMap_cons, List.filterMap_cons, List.foldl_append]
    by_cases hfs : fs (unmount e.2) = true
    · rw [if_pos hfs, if_pos hfs]
      dsimp only
      simp only [List.foldl_nil]
      exact ih m
    · rw [if_neg hfs, if_neg hfs]
      dsimp only
      simp only [List.foldl_cons, List.foldl_nil, parseLineStep_msg]
      exact ih (addMissing m e.1.1 e.1.2)

theorem addMissing_absent (m : List (Option Nat × List (Option Nat))) (s c : Option Nat)
    (h : ∀ p ∈ m, p.1 ≠ s) : addMissing m s c = m ++ [(s, [c])] := by
  induction m with
  | nil => rfl
  | cons kv rest ih =>
    obtain ⟨k, v⟩ := kv
    have hk : k ≠ s := h (k, v) (by simp)
    simp only [addMissing, if_neg hk, List.cons_append]
    rw [ih (fun p hp => h p (by simp [hp]))]

theorem addMissing_last (m : List (Option Nat × List (Option Nat))) (s : Option Nat)
    (v : List (Option Nat)) (c : Option Nat) (h : ∀ p ∈ m, p.1 ≠ s) :
    addMissing (m ++ [(s, v)]) s c = m ++ [(s, v ++ [c])] := by
  induction m with
  | nil => simp [addMissing]
  | cons kv rest ih =>
    obtain ⟨k, v'⟩ := kv
    have hk : k ≠ s := h (k, v') (by simp)
    simp only [List.cons_append, addMissing, if_neg hk]
    rw [List.append_eq, ih (fun p hp => h p (by simp [hp]))]

theorem addMissing_fold_block (s : Option Nat) :
    ∀ (cs : List (Option Nat)) (v : List (Option Nat)) (m : List (Option Nat × List (Option Nat))),
      (∀ p ∈ m, p.1 ≠ s) →
      ((cs.map (fun c => (s, c))).foldl (fun m p => addMissing m p.1 p.2) (m ++ [(s, v)]))
        = m ++ [(s, v ++ cs)] := by
  intro cs
  induction cs with
  | nil =>
    intro v m h
    simp
  | cons c cs ih =>
    intro v m h
    simp only [List.map_cons, List.foldl_cons]
    rw [addMissing_last m s v c h, ih (v ++ [c]) m h]
    simp

theorem addMissing_fold_first (s : Option Nat) (cs : List (Option Nat))
    (m : List (Option Nat × List (Option Nat))) (h : ∀ p ∈ m, p.1 ≠ s) (hcs : cs ≠ []) :
    (cs.map (fun c => (s, c))).foldl (fun m p => addMissing m p.1 p.2) m = m ++ [(s, cs)] := by
  cases cs with
  | nil => exact absurd rfl hcs
  | cons c0 cs' =>
    simp only [List.map_cons, List.foldl_cons]
    rw [addMissing_absent m s c0 h, addMissing_fold_block s cs' [c0] m h]
    rfl

theorem addMissing_fold_seeds (chunks : List (Option Nat)) (hch : chunks ≠ []) :
    ∀ (seeds : List (Option Nat)) (m : List (Option Nat × List (Option Nat))),
      seeds.Nodup → (∀ p ∈ m, ∀ s ∈ seeds, p.1 ≠ s) →
      ((seeds.flatMap (fun s => chunks.map (fun c => (s, c)))).foldl
          (fun m p => addMissing m p.1 p.2) m)
        = m ++ seeds.map (fun s => (s, chunks)) := by
  intro seeds
  induction seeds with
  | nil =>
    intro m _ _
    simp
  | cons s seeds ih =>
    intro m hnd hm
    rw [List.flatMap_cons, List.foldl_append]
    rw [addMissing_fold_first s chunks m (fun p hp => hm p hp s (by simp)) hch]
    obtain ⟨hs, hnd'⟩ := List.nodup_cons.mp hnd
    rw [ih (m ++ [(s, chunks)]) hnd' ?side]
    · simp
    case side =>
      intro p hp t ht
      rcases List.mem_append.mp hp with hp | hp
      · exact hm p hp t (by simp [ht])
      · simp only [List.mem_singleton] at hp
        subst hp
        intro he
        exact hs (by rw [show s = t from he]; exact ht)

theorem dread_present (m : List (Option Nat × List (Option Nat))) (s : Option Nat)
    (h : ∃ p ∈ m, p.1 = s) : defaultdictRead m s = m := by
  rw [defaultdictRead, if_pos]
  obtain ⟨p, hp, he⟩ := h
  exact List.any_eq_true.mpr ⟨p, hp, by simp [he]⟩

theorem dread_absent (m : List (Option Nat × List (Option Nat))) (s : Option Nat)
    (h : ∀ p ∈ m, p.1 ≠ s) : defaultdictRead m s = m ++ [(s, [])] := by
  rw [defaultdictRead, if_neg]
  intro hany
  obtain ⟨p, hp, hd⟩ := List.any_eq_true.mp hany
  exact h p hp (by simpa using hd)

theorem dread_fold_present (keys : List (Option Nat)) :
    ∀ (m : List (Option Nat × List (Option Nat))), (∀ k ∈ keys, ∃ p ∈ m, p.1 = k) →
      keys.foldl (fun m k => defaultdictRead m k) m = m := by
  induction keys with
  | nil => intro m _; rfl
  | cons k keys ih =>
    intro m h
    simp only [List.foldl_cons]
    rw [dread_present m k (h k (by simp))]
    exact ih m (fun t ht => h t (by simp [ht]))

theorem dread_fold_const (s : Option Nat) :
    ∀ (cs : List (Option Nat)) (m : List (Option Nat × List (Option Nat))),
      (∃ p ∈ m, p.1 = s) →
      (cs.map (fun _ => s)).foldl (fun m k => defaultdictRead m k) m = m := by
  intro cs
  induction cs with
  | nil => intro m _; rfl
  | cons c cs ih =>
    intro m h
    simp only [List.map_cons, List.foldl_cons]
    rw [dread_present m s h]
    exact ih m h

theorem dread_fold_seeds (chunks : List (Option Nat)) (hch : chunks ≠ []) :
    ∀ (seeds : List (Option Nat)) (m : List (Option Nat × List (Option Nat))),
      seeds.Nodup → (∀ p ∈ m, ∀ s ∈ seeds, p.1 ≠ s) →
      ((seeds.flatMap (fun s => chunks.map (fun _ => s))).foldl
          (fun m k => defaultdictRead m k) m)
        = m ++ seeds.map (fun s => (s, ([] : List (Option Nat)))) := by
  intro seeds
  induction seeds with
  | nil =>
    intro m _ _
    simp
  | cons s seeds ih =>
    intro m hnd hm
    rw [List.flatMap_cons, List.foldl_append]
    have hblock : (chunks.map (fun _ => s)).foldl (fun m k => defaultdictRead m k) m
        = m ++ [(s, [])] := by
      cases chunks with
      | nil => exact absurd rfl hch
      | cons c0 cs' =>
        simp only [List.map_cons, List.foldl_cons]
        rw [dread_absent m s (fun p hp => hm p hp s (by simp))]
        exact dread_fold_const s cs' (m ++ [(s, [])]) ⟨(s, []), by simp, rfl⟩
    rw [hblock]
    obtain ⟨hs, hnd'⟩ := List.nodup_cons.mp hnd
    rw [ih (m ++ [(s, [])]) hnd' ?side2]
    · simp
    case side2 =>
      intro p hp t ht
      rcases List.mem_append.mp hp with hp | hp
      · exact hm p hp t (by simp [ht])
      · simp only [List.mem_singleton] at hp
        subst hp
        intro he
        exact hs (by rw [show s = t from he]; exact ht)

theorem lookup_map_const (chunks : List (Option Nat)) :
    ∀ (seeds : List (Option Nat)) (s : Option Nat), s ∈ seeds →
      lookupSeed (seeds.map (fun t => (t, chunks))) s = chunks := by
  intro seeds
  induction seeds with
  | nil => intro s h; cases h
  | cons t seeds ih =>
    intro s hs
    simp only [List.map_cons]
    rw [lookupSeed_cons]
    by_cases h : t = s
    · rw [if_pos h]
    · rw [if_neg h]
      rcases List.mem_cons.mp hs with he | hmem
      · exact absurd he.symm h
      · exact ih s hmem

theorem gedf_keys (output_dir output_prefix : String) (seeds chunks : List (Option Nat)) :
    (get_expected_done_files output_dir seeds chunks output_prefix).map (fun e => e.1.1)
      = seeds.flatMap (fun s => chunks.map (fun _ => s)) := by
  simp only [get_expected_done_files, List.map_flatMap, List.map_map]
  rfl

theorem filterMap_some_proj {α β : Type} (f : α → β) :
    ∀ l : List α, l.filterMap (fun a => some (f a)) = l.map f := by
  intro l
  induction l with
  | nil => rfl
  | cons a l ih => simp [List.filterMap_cons, ih]

theorem gedf_pairs (output_dir output_prefix : String) (seeds chunks : List (Option Nat)) :
    (get_expected_done_files output_dir seeds chunks output_prefix).map (fun e => e.1)
      = seeds.flatMap (fun s => chunks.map (fun c => (s, c))) := by
  simp only [get_expected_done_files, List.map_flatMap, List.map_map]
  rfl

theorem get_remaining_jobs_unfold (fs : String → Bool) (unmount : String → String)
    (output_dir output_prefix : String) (random_seeds chunk_ids : List (Option Nat)) :
    get_remaining_jobs fs unmount output_dir random_seeds chunk_ids false output_prefix
      = ((get_expected_done_files output_dir random_seeds chunk_ids output_prefix).map
            (fun e => e.1.1)).foldl (fun m k => defaultdictRead m k)
          (((get_expected_done_files output_dir random_seeds chunk_ids output_prefix).filterMap
              (fun e => if fs (unmount e.2) then none else some e.1)).foldl
            (fun m p => addMissing m p.1 p.2) []) := by
  show (get_expected_done_files output_dir random_seeds chunk_ids output_prefix).foldl
      (fun m e => defaultdictRead m e.1.1)
      (parseMissingLines (probeOutputLines fs random_seeds.length
        (checkCommandsOf unmount
          (get_expected_done_files output_dir random_seeds chunk_ids output_prefix)))) = _
  rw [probe_lines_eq, parseMissingLines, parse_lines_fold, List.foldl_map]

/-- C3 (amended): with `rerun_done` false, a work unit `(seed, chunk)` of the requested
matrix is remaining iff its `MISSING:<seed-or-NONE>:<chunk-or-NONE>` token appears in
the probe output, iff its `.done` marker is absent. With no markers present every
requested seed maps to the full chunk-id list. With all markers present every
requested seed maps to the empty chunk list — but the returned mapping is not the
empty mapping: the source's defaultdict reads leave one empty entry per seed. -/
theorem get_remaining_jobs_matrix (fs : String → Bool) (unmount : String → String)
    (output_dir output_prefix : String) (random_seeds chunk_ids : List (Option Nat))
    (hseeds : random_seeds.Nodup) (hchunks : chunk_ids.Nodup) :
    (∀ s ∈ random_seeds, ∀ c ∈ chunk_ids,
       ((c ∈ lookupSeed (get_remaining_jobs fs unmount output_dir random_seeds chunk_ids
              false output_prefix) s)
           ↔ fs (unmount (markerDone output_dir output_prefix s c)) = false)
       ∧ ((c ∈ lookupSeed (get_remaining_jobs fs unmount output_dir random_seeds chunk_ids
              false output_prefix) s)
           ↔ mkMissingMsg s c ∈ probeOutputLines fs random_seeds.length
               (checkCommandsOf unmount
                 (get_expected_done_files output_dir random_seeds chunk_ids output_prefix))))
    ∧ ((∀ p, fs p = false) → ∀ s ∈ random_seeds,
         lookupSeed (get_remaining_jobs fs unmount output_dir random_seeds chunk_ids
           false output_prefix) s = chunk_ids)
    ∧ ((∀ p, fs p = true) → chunk_ids ≠ [] →
         get_remaining_jobs fs unmount output_dir random_seeds chunk_ids false output_prefix
           = random_seeds.map (fun s => (s, []))) := by
  refine ⟨?part1, ?part2, ?part3⟩
  case part1 =>
    intro s hs c hc
    have hmem : (c ∈ lookupSeed (get_remaining_jobs fs unmount output_dir random_seeds
        chunk_ids false output_prefix) s)
        ↔ ((s, c) ∈ (get_expected_done_files output_dir random_seeds chunk_ids
            output_prefix).filterMap (fun e => if fs (unmount e.2) then none else some e.1)) := by
      rw [get_remaining_jobs_unfold, lookup_foldl_dread, mem_lookup_addMissing_fold]
      have hnil : lookupSeed [] s = [] := rfl
      rw [hnil]
      simp
    have hPiff : ((s, c) ∈ (get_expected_done_files output_dir random_seeds chunk_ids
          output_prefix).filterMap (fun e => if fs (unmount e.2) then none else some e.1))
        ↔ fs (unmount (markerDone output_dir output_prefix s c)) = false := by
      rw [List.mem_filterMap]
      constructor
      · rintro ⟨e, heE, hfe⟩
        by_cases hfs : fs (unmount e.2) = true
        · rw [if_pos hfs] at hfe
          cases hfe
        · rw [if_neg hfs] at hfe
          have he1 : e.1 = (s, c) := Option.some.inj hfe
          obtain ⟨-, -, hshape⟩ := gedf_entry_shape output_dir output_prefix random_seeds
            chunk_ids e heE
          rw [Bool.not_eq_true] at hfs
          rw [hshape, he1] at hfs
          exact hfs
      · intro hfs
        refine ⟨((s, c), markerDone output_dir output_prefix s c),
          (mem_gedf output_dir output_prefix random_seeds chunk_ids s c _).mpr ⟨hs, hc, rfl⟩, ?_⟩
        simp [hfs]
    exact ⟨hmem.trans hPiff,
      hmem.trans (hPiff.trans (msg_mem_lines_iff fs unmount output_dir output_prefix
        random_seeds chunk_ids s c hs hc).symm)⟩
  case part2 =>
    intro hfs s hs
    by_cases hch : chunk_ids = []
    · subst hch
      have hE : get_expected_done_files output_dir random_seeds [] output_prefix = [] := by
        simp [get_expected_done_files]
      rw [get_remaining_jobs_unfold, hE]
      simp [lookupSeed]
    · rw [get_remaining_jobs_unfold, lookup_foldl_dread]
      have hP : (get_expected_done_files output_dir random_seeds chunk_ids
            output_prefix).filterMap (fun e => if fs (unmount e.2) then none else some e.1)
          = random_seeds.flatMap (fun t => chunk_ids.map (fun c => (t, c))) := by
        have h1 : (get_expected_done_files output_dir random_seeds chunk_ids
              output_prefix).filterMap (fun e => if fs (unmount e.2) then none else some e.1)
            = (get_expected_done_files output_dir random_seeds chunk_ids
                output_prefix).filterMap (fun e => some e.1) := by
          apply List.filterMap_congr
          intro e _
          rw [hfs (unmount e.2)]
          rfl
        rw [h1, filterMap_some_proj, gedf_pairs]
      rw [hP, addMissing_fold_seeds chunk_ids hch random_seeds [] hseeds (by simp)]
      simpa using lookup_map_const chunk_ids random_seeds s hs
  case part3 =>
    intro hfs hch
    rw [get_remaining_jobs_unfold]
    have hP0 : (get_expected_done_files output_dir random_seeds chunk_ids
          output_prefix).filterMap (fun e => if fs (unmount e.2) then none else some e.1)
        = [] := by
      rw [List.filterMap_eq_nil_iff]
      intro e _
      rw [hfs (unmount e.2)]
      rfl
    rw [hP0, gedf_keys]
    simpa using dread_fold_seeds chunk_ids hch random_seeds [] hseeds (by simp)

theorem get_remaining_jobs_matrix_witness :
    ([some 0, none] : List (Option Nat)).Nodup ∧ ([none] : List (Option Nat)).Nodup ∧
    (∀ s ∈ ([some 0, none] : List (Option Nat)),
       lookupSeed (get_remaining_jobs (fun _ => false) (fun p => p) "/out" [some 0, none]
         [none] false "output") s = [none]) :=
  ⟨by decide, by decide,
    (get_remaining_jobs_matrix (fun _ => false) (fun p => p) "/out" "output"
      [some 0, none] [none] (by decide) (by decide)).2.1 (fun _ => rfl)⟩

/-- C3 counterexample: with a single seed, a single (unchunked) work unit and the
marker already present, `get_remaining_jobs` returns the mapping `{0: []}` — one
defaultdict entry per requested seed — not the empty mapping claimed by the spec. -/
theorem get_remaining_jobs_nonempty_counterexample :
    get_remaining_jobs (fun _ => true) (fun p => p) "/out" [some 0] [none] false "output"
      = [(some 0, [])]
    ∧ get_remaining_jobs (fun _ => true) (fun p => p) "/out" [some 0] [none] false "output"
      ≠ ([] : List (Option Nat × List (Option Nat))) := by
  constructor
  · rfl
  · decide

theorem checkCommands_length (unmount : String → String) (output_dir output_prefix : String)
    (seeds chunks : List (Option Nat)) :
    (checkCommandsOf unmount (get_expected_done_files output_dir seeds chunks
        output_prefix)).length
      = seeds.length * chunks.length := by
  rw [checkCommandsOf, List.length_map, get_expected_done_files, List.length_flatMap]
  have h1 : List.map (List.length ∘ fun s => chunks.map
        (fun c => ((s, c), markerDone output_dir output_prefix s c))) seeds
      = List.map (fun _ => chunks.length) seeds := by
    apply List.map_congr_left
    intro a _
    simp
  rw [h1]
  induction seeds with
  | nil => simp
  | cons a l ih => simp [ih, Nat.succ_mul, Nat.add_comm]

/-- C4 (amended): batch outputs are concatenated in batch order, so parsing sees all
check results; but commands are split into groups of at most sixteen only when more
than sixteen random seeds are requested — in that case the number of remote round
trips is `ceil(|seeds|·|chunks| / 16)` — while with at most sixteen seeds a single
invocation carries all `|seeds|·|chunks|` existence checks, however many that is. -/
theorem probe_batching_policy (fs : String → Bool) (unmount : String → String)
    (output_dir output_prefix : String) (random_seeds chunk_ids : List (Option Nat)) :
    ((probeBatches random_seeds.length (checkCommandsOf unmount
        (get_expected_done_files output_dir random_seeds chunk_ids output_prefix))).flatten
      = checkCommandsOf unmount
          (get_expected_done_files output_dir random_seeds chunk_ids output_prefix))
    ∧ (16 < random_seeds.length →
        (∀ g ∈ probeBatches random_seeds.length (checkCommandsOf unmount
            (get_expected_done_files output_dir random_seeds chunk_ids output_prefix)),
          g.length ≤ 16)
        ∧ (probeBatches random_seeds.length (checkCommandsOf unmount
            (get_expected_done_files output_dir random_seeds chunk_ids output_prefix))).length
          = (random_seeds.length * chunk_ids.length + 15) / 16)
    ∧ (random_seeds.length ≤ 16 →
        probeBatches random_seeds.length (checkCommandsOf unmount
          (get_expected_done_files output_dir random_seeds chunk_ids output_prefix))
        = [checkCommandsOf unmount
            (get_expected_done_files output_dir random_seeds chunk_ids output_prefix)])
    ∧ probeOutputLines fs random_seeds.length (checkCommandsOf unmount
        (get_expected_done_files output_dir random_seeds chunk_ids output_prefix))
      = (checkCommandsOf unmount
          (get_expected_done_files output_dir random_seeds chunk_ids output_prefix)).flatMap
          (runCheck fs) := by
  refine ⟨probeBatches_flatten _ _, ?_, ?_, probeOutputLines_eq fs _ _⟩
  · intro h16
    constructor
    · intro g hg
      rw [probeBatches, if_pos h16] at hg
      exact probeGroups16_bound _ g hg
    · rw [probeBatches, if_pos h16, probeGroups16, List.length_map, List.length_range,
        checkCommands_length]
  · intro hle
    rw [probeBatches, if_neg (by omega)]

theorem probe_batching_policy_witness :
    16 < ((List.range 17).map (fun i => (some i : Option Nat))).length ∧
    (∀ g ∈ probeBatches ((List.range 17).map (fun i => (some i : Option Nat))).length
        (checkCommandsOf (fun p => p) (get_expected_done_files "/out"
          ((List.range 17).map (fun i => (some i : Option Nat))) [none] "output")),
      g.length ≤ 16) ∧
    (probeBatches ((List.range 17).map (fun i => (some i : Option Nat))).length
        (checkCommandsOf (fun p => p) (get_expected_done_files "/out"
          ((List.range 17).map (fun i => (some i : Option Nat))) [none] "output"))).length
      = (((List.range 17).map (fun i => (some i : Option Nat))).length
          * ([none] : List (Option Nat)).length + 15) / 16 :=
  ⟨by decide,
    ((probe_batching_policy (fun _ => true) (fun p => p) "/out" "output"
      ((List.range 17).map (fun i => (some i : Option Nat))) [none]).2.1 (by decide)).1,
    ((probe_batching_policy (fun _ => true) (fun p => p) "/out" "output"
      ((List.range 17).map (fun i => (some i : Option Nat))) [none]).2.1 (by decide)).2⟩

/-- Concrete probe command list with two seeds and twenty chunks: forty checks. -/
def probeWideCmds : List CheckCmd :=
  checkCommandsOf (fun p => p)
    (get_expected_done_files "/out" [some 0, some 1]
      ((List.range 20).map (fun i => (some i : Option Nat))) "output")

/-- C4 counterexample: with two seeds and twenty chunks the probe issues a single
remote invocation carrying all forty existence checks, so the claimed per-invocation
bound of sixteen checks is violated. -/
theorem probe_batching_counterexample :
    probeBatches 2 probeWideCmds = [probeWideCmds]
    ∧ probeWideCmds.length = 40
    ∧ ¬ (∀ g ∈ probeBatches 2 probeWideCmds, g.length ≤ 16) := by
  refine ⟨rfl, ?_, ?_⟩
  · rw [show probeWideCmds.length = 40 from rfl]
  · intro hall
    have h := hall probeWideCmds
      (by rw [show probeBatches 2 probeWideCmds = [probeWideCmds] from rfl]; simp)
    rw [show probeWideCmds.length = 40 from rfl] at h
    omega

/-! ### Generation command composition (from `generate.get_cmd`) -/

/-- Characters Python `shlex.quote` leaves unquoted. -/
def shlexSafeChar (c : Char) : Bool :=
  c.isAlphanum || c = '_' || c = '@' || c = '%' || c = '+' || c = '=' || c = ':'
    || c = ',' || c = '.' || c = '/' || c = '-'

/-- Model of Python `shlex.quote` (standard library, used by `get_cmd` on the
post-process command): safe strings pass through, everything else is wrapped in
single quotes with embedded quotes escaped. -/
def shlexQuote (s : String) : String :=
  if s = "" then "\x27\x27"
  else if s.data.all shlexSafeChar then s
  else "\x27"
    ++ ⟨s.data.flatMap (fun ch =>
          if ch = '\x27' then ('\x27' :: '"' :: '\x27' :: '"' :: '\x27' :: []) else [ch])⟩
    ++ "\x27"

/-- Model of Python `s[:-n]` on strings (character based). -/
def strDropRight (s : String) (n : Nat) : String := ⟨s.data.take (s.data.length - n)⟩

/-- The `donefiles` list of `get_cmd`: one `.done` marker per chunk in
`range(num_chunks)` — always all of `num_chunks`, whatever chunk ids the current
run requested. -/
def donefilesOf (output_dir : String) (random_seed : Option Nat) (num_chunks : Nat)
    ( output_prefix : String) : List String :=
  (List.range num_chunks).map (fun cur =>
    get_chunked_rs_filename output_dir random_seed (some cur) output_prefix ++ ".done")

/-- The merge stage of `get_cmd`: merges the partial chunk files (`f[:-5]` of each
done file) into the unchunked output file. -/
def mergeCmdOf (output_dir : String) (random_seed : Option Nat) (num_chunks : Nat)
    ( output_prefix : String) : String :=
  "python -m nemo_skills.inference.merge_chunks "
    ++ get_chunked_rs_filename output_dir random_seed none output_prefix ++ " "
    ++ String.intercalate " "
        ((donefilesOf output_dir random_seed num_chunks output_prefix).map
          (fun f => strDropRight f 5))

/-- Embedding of `generate.get_cmd`: builds the generation command and the
marker-touch/merge postprocess command. `num_chunks.getD 0` mirrors the source's
assumption that `num_chunks` is always set when `chunk_id` is (indexing
`donefiles[chunk_id]` would raise in the source for `chunk_id ≥ num_chunks`;
theorems assume `chunk_id < num_chunks`). The source's `job_end_cmd` is still empty
at both `if job_end_cmd` branches, so only their else paths are modelled. -/
def get_cmd (output_dir : String) (extra_arguments : String) (random_seed : Option Nat)
    (eval_args : Option String) (chunk_id : Option Nat) (num_chunks : Option Nat)
    (postprocess_cmd : Option String) (script : String) ( output_prefix : String) :
    String × String :=
  let output_file := get_chunked_rs_filename output_dir random_seed none output_prefix
  let cmd := "python -m " ++ script ++ " ++skip_filled=True ++output_file="
    ++ output_file ++ " "
  let cmd :=
    match random_seed with
    | some s => cmd ++ "    ++inference.random_seed=" ++ natStr s ++ " "
        ++ "    ++inference.temperature=1.0 " ++ "    ++inference.top_k=0 "
        ++ "    ++inference.top_p=0.95 "
    | none => cmd
  match chunk_id with
  | some cid =>
    let n := num_chunks.getD 0
    let cmd := cmd ++ " ++num_chunks=" ++ natStr n ++ " ++chunk_id=" ++ natStr cid ++ " "
    let output_file := get_chunked_rs_filename output_dir random_seed (some cid) output_prefix
    let donefiles := donefilesOf output_dir random_seed n output_prefix
    let job_end_cmd := "touch " ++ donefiles.getD cid "" ++ " "
    let merge_cmd := mergeCmdOf output_dir random_seed n output_prefix
    let merge_cmd :=
      match postprocess_cmd with
      | some p => merge_cmd ++ " -- " ++ shlexQuote p
      | none => merge_cmd
    let post := job_end_cmd ++ " && " ++ merge_cmd
    let cmd := cmd ++ " " ++ extra_arguments ++ " "
    let cmd :=
      match eval_args with
      | some e => cmd ++ " && python -m nemo_skills.evaluation.evaluate_results "
          ++ "    ++input_files=" ++ output_file ++ " " ++ "    " ++ e ++ " "
      | none => cmd
    (cmd, post)
  | none =>
    let job_end_cmd := "touch " ++ output_file ++ ".done "
    let post :=
      match postprocess_cmd with
      | some p => job_end_cmd ++ " && " ++ p
      | none => job_end_cmd
    let cmd := cmd ++ " " ++ extra_arguments ++ " "
    let cmd :=
      match eval_args with
      | some e => cmd ++ " && python -m nemo_skills.evaluation.evaluate_results "
          ++ "    ++input_files=" ++ output_file ++ " " ++ "    " ++ e ++ " "
      | none => cmd
    (cmd, post)

theorem strDropRight_done (x : String) : strDropRight (x ++ ".done") 5 = x := by
  apply String.ext
  show ((x ++ ".done").data.take ((x ++ ".done").data.length - 5)) = x.data
  rw [String.data_append]
  have hlen : (x.data ++ (".done" : String).data).length - 5 = x.data.length := by
    simp [String.data_append]
  rw [hlen]
  exact List.take_left x.data _

theorem donefilesOf_getD (output_dir : String) (random_seed : Option Nat)
    ( output_prefix : String) (n cid : Nat) (h : cid < n) :
    (donefilesOf output_dir random_seed n output_prefix).getD cid ""
      = get_chunked_rs_filename output_dir random_seed (some cid) output_prefix ++ ".done" := by
  rw [donefilesOf, List.getD_eq_getElem?_getD, List.getElem?_map, List.getElem?_range h]
  rfl

theorem get_cmd_chunk_post (output_dir extra_arguments : String) (random_seed : Option Nat)
    (eval_args : Option String) (postprocess_cmd : Option String)
    (script output_prefix : String) (n cid : Nat) :
    (get_cmd output_dir extra_arguments random_seed eval_args (some cid) (some n)
        postprocess_cmd script output_prefix).2
      = "touch " ++ (donefilesOf output_dir random_seed n output_prefix).getD cid "" ++ " "
        ++ " && "
        ++ (match postprocess_cmd with
            | some p => mergeCmdOf output_dir random_seed n output_prefix
                ++ " -- " ++ shlexQuote p
            | none => mergeCmdOf output_dir random_seed n output_prefix) := by
  cases random_seed <;> cases postprocess_cmd <;> cases eval_args <;> rfl

/-- C1: for a chunked work unit (`chunk_id = cid < num_chunks = n`), the postprocess
pipeline built by `get_cmd` touches the unit's own marker and then runs one merge
command whose file list is built from `range n` — the merge references the partial
files (and, with `.done` appended, the markers) of all `n` chunks for the seed,
independent of `cid` and hence of which chunk ids the current invocation requested. -/
theorem get_cmd_merge_covers_all_chunks (output_dir extra_arguments : String)
    (random_seed : Option Nat) (eval_args : Option String) (postprocess_cmd : Option String)
    (script output_prefix : String) (n cid : Nat) (h : cid < n) :
    ((get_cmd output_dir extra_arguments random_seed eval_args (some cid) (some n)
        postprocess_cmd script output_prefix).2
      = "touch " ++ (get_chunked_rs_filename output_dir random_seed (some cid)
            output_prefix ++ ".done") ++ " "
        ++ " && "
        ++ (match postprocess_cmd with
            | some p => mergeCmdOf output_dir random_seed n output_prefix
                ++ " -- " ++ shlexQuote p
            | none => mergeCmdOf output_dir random_seed n output_prefix))
    ∧ ((donefilesOf output_dir random_seed n output_prefix).map (fun f => strDropRight f 5)
        = (List.range n).map (fun c =>
            get_chunked_rs_filename output_dir random_seed (some c) output_prefix))
    ∧ (∀ c, c < n →
        (get_chunked_rs_filename output_dir random_seed (some c) output_prefix)
          ∈ (donefilesOf output_dir random_seed n output_prefix).map (fun f => strDropRight f 5)
        ∧ (get_chunked_rs_filename output_dir random_seed (some c) output_prefix ++ ".done")
          ∈ donefilesOf output_dir random_seed n output_prefix) := by
  have hparts : (donefilesOf output_dir random_seed n output_prefix).map
        (fun f => strDropRight f 5)
      = (List.range n).map (fun c =>
          get_chunked_rs_filename output_dir random_seed (some c) output_prefix) := by
    rw [donefilesOf, List.map_map]
    apply List.map_congr_left
    intro c _
    exact strDropRight_done _
  refine ⟨?_, hparts, ?_⟩
  · rw [get_cmd_chunk_post, donefilesOf_getD output_dir random_seed output_prefix n cid h]
  · intro c hc
    constructor
    · rw [hparts]
      exact List.mem_map.mpr ⟨c, List.mem_range.mpr hc, rfl⟩
    · rw [donefilesOf]
      exact List.mem_map.mpr ⟨c, List.mem_range.mpr hc, rfl⟩

theorem get_cmd_merge_covers_all_chunks_witness :
    0 < 4
    ∧ (((get_cmd "/out" "" none none (some 0) (some 4) none
          "nemo_skills.inference.generate" "output").2
        = "touch " ++ (get_chunked_rs_filename "/out" none (some 0) "output" ++ ".done") ++ " "
          ++ " && " ++ mergeCmdOf "/out" none 4 "output")
      ∧ ((donefilesOf "/out" none 4 "output").map (fun f => strDropRight f 5)
          = (List.range 4).map (fun c => get_chunked_rs_filename "/out" none (some c) "output"))
      ∧ (∀ c, c < 4 →
          (get_chunked_rs_filename "/out" none (some c) "output")
            ∈ (donefilesOf "/out" none 4 "output").map (fun f => strDropRight f 5)
          ∧ (get_chunked_rs_filename "/out" none (some c) "output" ++ ".done")
            ∈ donefilesOf "/out" none 4 "output")) :=
  ⟨by decide,
    get_cmd_merge_covers_all_chunks "/out" "" none none none
      "nemo_skills.inference.generate" "output" 4 0 (by decide)⟩

/-! ### Eval-side command composition (from `eval.py`) -/

/-- String containment: `pat` occurs as a contiguous segment of `s`. -/
def containsStr (s pat : String) : Prop := ∃ u v : String, s = u ++ pat ++ v

theorem containsStr_iff (s pat : String) : containsStr s pat ↔ pat.data <:+: s.data := by
  constructor
  · rintro ⟨u, v, rfl⟩
    exact ⟨u.data, v.data, by simp [String.data_append]⟩
  · rintro ⟨u, v, h⟩
    refine ⟨⟨u⟩, ⟨v⟩, String.ext ?_⟩
    rw [← h]
    simp [String.data_append]

/-- Embedding of `eval.get_greedy_cmd`: one generation-plus-evaluation command per
requested chunk (or a single unchunked command). The source builds the chunk
parameter and chunked-filename lists separately and zips them; they are built
pairwise here. -/
def get_greedy_cmd (benchmark output_dir : String) (output_name : String)
    (extra_eval_args extra_arguments : String) (num_chunks : Option Nat)
    (chunk_ids : Option (List Nat)) : List String :=
  let pairs : List (String × String) :=
    match num_chunks, chunk_ids with
    | some n, some ids =>
        ids.map (fun cid => ("++chunk_id=" ++ natStr cid ++ " ++num_chunks=" ++ natStr n,
          get_chunked_filename cid output_name))
    | _, _ => [("++chunk_id=null ++num_chunks=null", output_name)]
  pairs.map (fun pc =>
    "echo \x22Evaluating benchmark " ++ benchmark ++ "\x22 && "
    ++ "python -m nemo_skills.inference.generate "
    ++ "    ++output_file=" ++ output_dir ++ "/eval-results/" ++ benchmark ++ "/"
    ++ output_name ++ " "
    ++ "    " ++ pc.1 ++ " "
    ++ "    " ++ extra_arguments ++ " && "
    ++ "python -m nemo_skills.evaluation.evaluate_results "
    ++ "    ++input_files=" ++ output_dir ++ "/eval-results/" ++ benchmark ++ "/"
    ++ pc.2 ++ " " ++ extra_eval_args)

/-- Embedding of `eval.get_sampling_cmd`: prepends the seed and the sampling
temperature 0.7 to the generation arguments and uses the seed-tagged output name. -/
def get_sampling_cmd (benchmark output_dir : String) (random_seed : Nat)
    (extra_eval_args extra_arguments : String) (num_chunks : Option Nat)
    (chunk_ids : Option (List Nat)) : List String :=
  get_greedy_cmd benchmark output_dir ("output-rs" ++ natStr random_seed ++ ".jsonl")
    extra_eval_args
    (" inference.random_seed=" ++ natStr random_seed ++ " inference.temperature=0.7 "
      ++ extra_arguments)
    num_chunks chunk_ids

/-- Embedding of the per-benchmark command collection loop of `eval.eval`
(lines 337-362): a greedy block when `add_greedy` or `rs_num == 0` — with
temperature forced to 0.0 only when `rs_num > 0` — followed by one sampling
command set per seed in `range(starting_seed, starting_seed + rs_num)`. -/
def benchmarkEvalCmds (benchmark output_dir : String)
    (bench_gen_args bench_eval_args : String) (add_greedy : Bool)
    (rs_num starting_seed : Nat) (num_chunks : Option Nat)
    (chunk_ids : Option (List Nat)) : List (String × String) :=
  (if add_greedy || rs_num == 0 then
     (get_greedy_cmd benchmark output_dir "output.jsonl" bench_eval_args
       (if 0 < rs_num then bench_gen_args ++ " ++inference.temperature=0.0"
        else bench_gen_args)
       num_chunks chunk_ids).map (fun c => (c, benchmark))
   else [])
  ++ (List.range' starting_seed rs_num).flatMap (fun rs =>
       (get_sampling_cmd benchmark output_dir rs bench_eval_args bench_gen_args
         num_chunks chunk_ids).map (fun c => (c, benchmark)))

theorem containsStr_append_right (a b pat : String) (h : containsStr a pat) :
    containsStr (a ++ b) pat := by
  obtain ⟨u, v, rfl⟩ := h
  refine ⟨u, v ++ b, ?_⟩
  apply String.ext
  simp [String.data_append, List.append_assoc]

theorem seed_block_contains (output_dir script output_prefix : String) (s : Nat) :
    containsStr ("python -m " ++ script ++ " ++skip_filled=True ++output_file="
        ++ get_chunked_rs_filename output_dir (some s) none output_prefix ++ " "
        ++ "    ++inference.random_seed=" ++ natStr s ++ " "
        ++ "    ++inference.temperature=1.0 " ++ "    ++inference.top_k=0 "
        ++ "    ++inference.top_p=0.95 ") "++inference.temperature=1.0"
    ∧ containsStr ("python -m " ++ script ++ " ++skip_filled=True ++output_file="
        ++ get_chunked_rs_filename output_dir (some s) none output_prefix ++ " "
        ++ "    ++inference.random_seed=" ++ natStr s ++ " "
        ++ "    ++inference.temperature=1.0 " ++ "    ++inference.top_k=0 "
        ++ "    ++inference.top_p=0.95 ") "++inference.top_k=0"
    ∧ containsStr ("python -m " ++ script ++ " ++skip_filled=True ++output_file="
        ++ get_chunked_rs_filename output_dir (some s) none output_prefix ++ " "
        ++ "    ++inference.random_seed=" ++ natStr s ++ " "
        ++ "    ++inference.temperature=1.0 " ++ "    ++inference.top_k=0 "
        ++ "    ++inference.top_p=0.95 ") "++inference.top_p=0.95"
    ∧ containsStr ("python -m " ++ script ++ " ++skip_filled=True ++output_file="
        ++ get_chunked_rs_filename output_dir (some s) none output_prefix ++ " "
        ++ "    ++inference.random_seed=" ++ natStr s ++ " "
        ++ "    ++inference.temperature=1.0 " ++ "    ++inference.top_k=0 "
        ++ "    ++inference.top_p=0.95 ") ("++inference.random_seed=" ++ natStr s) := by
  have h1 : ("    ++inference.temperature=1.0 " : String)
      = "    " ++ "++inference.temperature=1.0" ++ " " := by decide
  have h2 : ("    ++inference.top_k=0 " : String)
      = "    " ++ "++inference.top_k=0" ++ " " := by decide
  have h3 : ("    ++inference.top_p=0.95 " : String)
      = "    " ++ "++inference.top_p=0.95" ++ " " := by decide
  have h4 : ("    ++inference.random_seed=" : String)
      = "    " ++ "++inference.random_seed=" := by decide
  refine ⟨?_, ?_, ?_, ?_⟩
  · rw [h1]
    refine ⟨"python -m " ++ script ++ " ++skip_filled=True ++output_file="
        ++ get_chunked_rs_filename output_dir (some s) none output_prefix ++ " "
        ++ "    ++inference.random_seed=" ++ natStr s ++ " " ++ "    ",
      " " ++ "    ++inference.top_k=0 " ++ "    ++inference.top_p=0.95 ", ?_⟩
    apply String.ext
    simp [String.data_append, List.append_assoc]
  · rw [h2]
    refine ⟨"python -m " ++ script ++ " ++skip_filled=True ++output_file="
        ++ get_chunked_rs_filename output_dir (some s) none output_prefix ++ " "
        ++ "    ++inference.random_seed=" ++ natStr s ++ " "
        ++ "    ++inference.temperature=1.0 " ++ "    ",
      " " ++ "    ++inference.top_p=0.95 ", ?_⟩
    apply String.ext
    simp [String.data_append, List.append_assoc]
  · rw [h3]
    refine ⟨"python -m " ++ script ++ " ++skip_filled=True ++output_file="
        ++ get_chunked_rs_filename output_dir (some s) none output_prefix ++ " "
        ++ "    ++inference.random_seed=" ++ natStr s ++ " "
        ++ "    ++inference.temperature=1.0 " ++ "    ++inference.top_k=0 " ++ "    ",
      " ", ?_⟩
    apply String.ext
    simp [String.data_append, List.append_assoc]
  · rw [h4]
    refine ⟨"python -m " ++ script ++ " ++skip_filled=True ++output_file="
        ++ get_chunked_rs_filename output_dir (some s) none output_prefix ++ " " ++ "    ",
      " " ++ "    ++inference.temperature=1.0 " ++ "    ++inference.top_k=0 "
        ++ "    ++inference.top_p=0.95 ", ?_⟩
    apply String.ext
    simp [String.data_append, List.append_assoc]

set_option maxRecDepth 8192 in
/-- C6 (amended): `get_cmd` forces the sampling defaults — temperature 1.0,
top_k 0, top_p 0.95, plus the seed itself — into the inference parameters exactly
when the unit's seed is set, and injects no inference-parameter overrides at all for
the greedy unit (seed None); in `eval.py` the greedy command is forced to
temperature 0.0 only when sampling seeds are also requested (`rs_num > 0`, with
`add_greedy`), while with `rs_num = 0` the greedy command gets no temperature
override, and each sampling command forces temperature 0.7 with its seed. -/
theorem inference_param_forcing :
    (∀ (output_dir extra_arguments : String) (s : Nat) (eval_args : Option String)
       (chunk_id : Option Nat) (num_chunks : Option Nat) (postprocess_cmd : Option String)
       (script output_prefix : String),
       containsStr (get_cmd output_dir extra_arguments (some s) eval_args chunk_id
         num_chunks postprocess_cmd script output_prefix).1 "++inference.temperature=1.0"
       ∧ containsStr (get_cmd output_dir extra_arguments (some s) eval_args chunk_id
         num_chunks postprocess_cmd script output_prefix).1 "++inference.top_k=0"
       ∧ containsStr (get_cmd output_dir extra_arguments (some s) eval_args chunk_id
         num_chunks postprocess_cmd script output_prefix).1 "++inference.top_p=0.95"
       ∧ containsStr (get_cmd output_dir extra_arguments (some s) eval_args chunk_id
         num_chunks postprocess_cmd script output_prefix).1
         ("++inference.random_seed=" ++ natStr s))
    ∧ (∀ (output_dir extra_arguments : String) (postprocess_cmd : Option String)
         (script output_prefix : String),
         (get_cmd output_dir extra_arguments none none none none postprocess_cmd script
            output_prefix).1
           = "python -m " ++ script ++ " ++skip_filled=True ++output_file="
             ++ get_chunked_rs_filename output_dir none none output_prefix ++ " "
             ++ " " ++ extra_arguments ++ " ")
    ∧ (∀ (benchmark output_dir g e : String) (rs_num starting_seed : Nat)
         (nc : Option Nat) (ids : Option (List Nat)), 0 < rs_num →
         benchmarkEvalCmds benchmark output_dir g e true rs_num starting_seed nc ids
           = (get_greedy_cmd benchmark output_dir "output.jsonl" e
               (g ++ " ++inference.temperature=0.0") nc ids).map (fun c => (c, benchmark))
             ++ (List.range' starting_seed rs_num).flatMap (fun rs =>
                  (get_sampling_cmd benchmark output_dir rs e g nc ids).map
                    (fun c => (c, benchmark))))
    ∧ (∀ (benchmark output_dir g e : String) (ag : Bool) (starting_seed : Nat)
         (nc : Option Nat) (ids : Option (List Nat)),
         benchmarkEvalCmds benchmark output_dir g e ag 0 starting_seed nc ids
           = (get_greedy_cmd benchmark output_dir "output.jsonl" e g nc ids).map
               (fun c => (c, benchmark)))
    ∧ (∀ (benchmark output_dir nm e g : String),
         ∀ c ∈ get_greedy_cmd benchmark output_dir nm e
             (g ++ " ++inference.temperature=0.0") none none,
           containsStr c "++inference.temperature=0.0")
    ∧ (∀ (benchmark output_dir e g : String) (rs : Nat),
         ∀ c ∈ get_sampling_cmd benchmark output_dir rs e g none none,
           containsStr c ("inference.random_seed=" ++ natStr rs)
           ∧ containsStr c "inference.temperature=0.7") := by
  refine ⟨?seeded, ?greedy, ?gate1, ?gate0, ?evtemp, ?evsamp⟩
  case seeded =>
    intro output_dir extra_arguments s eval_args chunk_id num_chunks postprocess_cmd
      script output_prefix
    obtain ⟨hb1, hb2, hb3, hb4⟩ := seed_block_contains output_dir script output_prefix s
    have key : ∀ pat : String,
        containsStr ("python -m " ++ script ++ " ++skip_filled=True ++output_file="
          ++ get_chunked_rs_filename output_dir (some s) none output_prefix ++ " "
          ++ "    ++inference.random_seed=" ++ natStr s ++ " "
          ++ "    ++inference.temperature=1.0 " ++ "    ++inference.top_k=0 "
          ++ "    ++inference.top_p=0.95 ") pat →
        containsStr (get_cmd output_dir extra_arguments (some s) eval_args chunk_id
          num_chunks postprocess_cmd script output_prefix).1 pat := by
      intro pat hpat
      cases chunk_id with
      | none =>
        cases eval_args with
        | none =>
          dsimp only [get_cmd]
          iterate 3 apply containsStr_append_right
          exact hpat
        | some e =>
          dsimp only [get_cmd]
          iterate 10 apply containsStr_append_right
          exact hpat
      | some cid =>
        cases eval_args with
        | none =>
          dsimp only [get_cmd]
          iterate 8 apply containsStr_append_right
          exact hpat
        | some e =>
          dsimp only [get_cmd]
          iterate 15 apply containsStr_append_right
          exact hpat
    exact ⟨key _ hb1, key _ hb2, key _ hb3, key _ hb4⟩
  case greedy =>
    intro output_dir extra_arguments postprocess_cmd script output_prefix
    cases postprocess_cmd <;> rfl
  case gate1 =>
    intro benchmark output_dir g e rs_num starting_seed nc ids h
    simp [benchmarkEvalCmds, h]
  case gate0 =>
    intro benchmark output_dir g e ag starting_seed nc ids
    simp [benchmarkEvalCmds]
  case evtemp =>
    intro benchmark output_dir nm e g c hc
    have hsplit : (" ++inference.temperature=0.0" : String)
        = " " ++ "++inference.temperature=0.0" := by decide
    simp only [get_greedy_cmd, List.map_cons, List.map_nil, List.mem_singleton] at hc
    subst hc
    rw [hsplit]
    refine ⟨"echo \x22Evaluating benchmark " ++ benchmark ++ "\x22 && "
        ++ "python -m nemo_skills.inference.generate "
        ++ "    ++output_file=" ++ output_dir ++ "/eval-results/" ++ benchmark ++ "/"
        ++ nm ++ " "
        ++ "    " ++ "++chunk_id=null ++num_chunks=null" ++ " "
        ++ "    " ++ g ++ " ",
      " && " ++ "python -m nemo_skills.evaluation.evaluate_results "
        ++ "    ++input_files=" ++ output_dir ++ "/eval-results/" ++ benchmark ++ "/"
        ++ nm ++ " " ++ e, ?_⟩
    apply String.ext
    simp [String.data_append, List.append_assoc]
  case evsamp =>
    intro benchmark output_dir e g rs c hc
    simp only [get_sampling_cmd, get_greedy_cmd, List.map_cons, List.map_nil,
      List.mem_singleton] at hc
    subst hc
    constructor
    · have hsplit : (" inference.random_seed=" : String)
          = " " ++ "inference.random_seed=" := by decide
      rw [hsplit]
      refine ⟨"echo \x22Evaluating benchmark " ++ benchmark ++ "\x22 && "
          ++ "python -m nemo_skills.inference.generate "
          ++ "    ++output_file=" ++ output_dir ++ "/eval-results/" ++ benchmark ++ "/"
          ++ ("output-rs" ++ natStr rs ++ ".jsonl") ++ " "
          ++ "    " ++ "++chunk_id=null ++num_chunks=null" ++ " "
          ++ "    " ++ " ",
        " inference.temperature=0.7 " ++ g ++ " && "
          ++ "python -m nemo_skills.evaluation.evaluate_results "
          ++ "    ++input_files=" ++ output_dir ++ "/eval-results/" ++ benchmark ++ "/"
          ++ ("output-rs" ++ natStr rs ++ ".jsonl") ++ " " ++ e, ?_⟩
      apply String.ext
      simp [String.data_append, List.append_assoc]
    · have hsplit : (" inference.temperature=0.7 " : String)
          = " " ++ "inference.temperature=0.7" ++ " " := by decide
      rw [hsplit]
      refine ⟨"echo \x22Evaluating benchmark " ++ benchmark ++ "\x22 && "
          ++ "python -m nemo_skills.inference.generate "
          ++ "    ++output_file=" ++ output_dir ++ "/eval-results/" ++ benchmark ++ "/"
          ++ ("output-rs" ++ natStr rs ++ ".jsonl") ++ " "
          ++ "    " ++ "++chunk_id=null ++num_chunks=null" ++ " "
          ++ "    " ++ " inference.random_seed=" ++ natStr rs ++ " ",
        " " ++ g ++ " && "
          ++ "python -m nemo_skills.evaluation.evaluate_results "
          ++ "    ++input_files=" ++ output_dir ++ "/eval-results/" ++ benchmark ++ "/"
          ++ ("output-rs" ++ natStr rs ++ ".jsonl") ++ " " ++ e, ?_⟩
      apply String.ext
      simp [String.data_append, List.append_assoc]

set_option maxRecDepth 65536 in
/-- C6 counterexample: the command `get_cmd` composes for the designated greedy unit
(seed None) contains no `++inference.temperature` override at all — zero temperature
is not forced. -/
theorem get_cmd_greedy_no_temperature_counterexample :
    ¬ containsStr (get_cmd "/out" "" none none none none none
        "nemo_skills.inference.generate" "output").1 "++inference.temperature" := by
  rw [containsStr_iff]
  decide

theorem inference_param_forcing_witness :
    0 < 2 ∧
    (benchmarkEvalCmds "gsm8k" "/out" "GEN" "EV" true 2 0 none none
      = (get_greedy_cmd "gsm8k" "/out" "output.jsonl" "EV"
          ("GEN" ++ " ++inference.temperature=0.0") none none).map (fun c => (c, "gsm8k"))
        ++ (List.range' 0 2).flatMap (fun rs =>
             (get_sampling_cmd "gsm8k" "/out" rs "EV" "GEN" none none).map
               (fun c => (c, "gsm8k")))) :=
  ⟨by decide, inference_param_forcing.2.2.1 "gsm8k" "/out" "GEN" "EV" 2 0 none none
    (by decide)⟩

/-! ### Job batching (from `eval.eval`, lines 364-392) -/

/-- Model of the Python slice `xs[start::step]`: the elements at indices
`start, start+step, start+2*step, ...`. -/
def pySliceStep {α : Type} (xs : List α) (start step : Nat) : List α :=
  (List.range ((xs.length - start + step - 1) / step)).filterMap
    (fun q => xs[start + q * step]?)

/-- Embedding of the batch construction of `eval.eval`: batch `i` receives
`eval_cmds[i::num_jobs]`; its benchmark set is modelled as a list deduplicated in
first-insertion order (only `any` is applied to it downstream, which is order- and
multiplicity-insensitive). -/
def jobBatches (eval_cmds : List (String × String)) (num_jobs : Nat) :
    List (List String × List String) :=
  (List.range num_jobs).map (fun i =>
    let sel := pySliceStep eval_cmds i num_jobs
    (sel.map (fun p => p.1),
     sel.foldl (fun acc p => if p.2 ∈ acc then acc else acc ++ [p.2]) []))

/-- Embedding of the `num_jobs` resolution of `eval.eval`: `-1` means one job per
pipeline; otherwise the requested count is scaled by the number of chunk runs. -/
def resolve_num_jobs (num_jobs : Int) (num_cmds num_runs : Nat) : Int :=
  if num_jobs = -1 then (num_cmds : Int) else num_jobs * num_runs

theorem pySliceStep_of_le {α : Type} (xs : List α) (start step : Nat)
    (h : xs.length ≤ start) : pySliceStep xs start step = [] := by
  have h0 : xs.length - start = 0 := by omega
  have hnum : (xs.length - start + step - 1) / step = 0 := by
    rw [h0]
    cases step with
    | zero => rfl
    | succ k => exact Nat.div_eq_of_lt (by omega)
  rw [pySliceStep, hnum]
  rfl

theorem slice_count_succ (L start step : Nat) (hJ : 1 ≤ step) (h : start < L) :
    (L - start + step - 1) / step = (L - (start + step) + step - 1) / step + 1 := by
  have h1 : L - start + step - 1 = (L - start - 1) + step := by omega
  rw [h1, Nat.add_div_right _ (by omega : 0 < step)]
  congr 1
  rcases le_or_lt step (L - start) with hc | hc
  · congr 1
    omega
  · have h2 : L - (start + step) = 0 := by omega
    rw [h2, Nat.div_eq_of_lt (by omega), Nat.div_eq_of_lt (by omega)]

theorem pySliceStep_cons {α : Type} (xs : List α) (start step : Nat) (hJ : 1 ≤ step)
    (h : start < xs.length) :
    pySliceStep xs start step = xs.get ⟨start, h⟩ :: pySliceStep xs (start + step) step := by
  have hq := slice_count_succ xs.length start step hJ h
  rw [pySliceStep, hq, List.range_succ_eq_map, List.filterMap_cons]
  have h0 : xs[start + 0 * step]? = some (xs.get ⟨start, h⟩) := by
    simp [List.getElem?_eq_getElem h]
  rw [h0, List.filterMap_map]
  have hfun : ((fun q => xs[start + q * step]?) ∘ Nat.succ)
      = (fun q => xs[(start + step) + q * step]?) := by
    funext q
    have : start + (q + 1) * step = (start + step) + q * step := by ring
    simp [Function.comp, Nat.succ_eq_add_one, this]
  rw [hfun]
  have hlen : (xs.length - (start + step) + step - 1) / step
      = ((xs.drop 0).length - (start + step) + step - 1) / step := by simp
  rfl

theorem pySliceStep_length {α : Type} (step : Nat) (hJ : 1 ≤ step) :
    ∀ (fuel : Nat) (xs : List α) (start : Nat), xs.length - start ≤ fuel →
      (pySliceStep xs start step).length = (xs.length - start + step - 1) / step := by
  intro fuel
  induction fuel with
  | zero =>
    intro xs start h
    have hle : xs.length ≤ start := by omega
    rw [pySliceStep_of_le xs start step hle, List.length_nil]
    have h0 : xs.length - start = 0 := by omega
    rw [h0]
    symm
    exact Nat.div_eq_of_lt (by omega)
  | succ fuel ih =>
    intro xs start h
    rcases le_or_lt xs.length start with hle | hlt
    · rw [pySliceStep_of_le xs start step hle, List.length_nil]
      have h0 : xs.length - start = 0 := by omega
      rw [h0]
      symm
      exact Nat.div_eq_of_lt (by omega)
    · rw [pySliceStep_cons xs start step hJ hlt, List.length_cons,
        ih xs (start + step) (by omega), slice_count_succ xs.length start step hJ hlt]

theorem pySliceStep_getElem? {α : Type} (step : Nat) (hJ : 1 ≤ step) :
    ∀ (fuel : Nat) (xs : List α) (start q : Nat), xs.length - start ≤ fuel →
      (pySliceStep xs start step)[q]? = xs[start + q * step]? := by
  intro fuel
  induction fuel with
  | zero =>
    intro xs start q h
    rw [pySliceStep_of_le xs start step (by omega)]
    rw [List.getElem?_eq_none_iff.mpr (by omega : xs.length ≤ start + q * step)]
    rfl
  | succ fuel ih =>
    intro xs start q h
    rcases le_or_lt xs.length start with hle | hlt
    · rw [pySliceStep_of_le xs start step hle]
      rw [List.getElem?_eq_none_iff.mpr (by omega : xs.length ≤ start + q * step)]
      rfl
    · rw [pySliceStep_cons xs start step hJ hlt]
      cases q with
      | zero =>
        simp [List.getElem?_eq_getElem hlt]
      | succ q =>
        have harith : (start + step) + q * step = start + (q + 1) * step := by ring
        rw [List.getElem?_cons_succ, ih xs (start + step) q (by omega), harith]

theorem pySliceStep_head? {α : Type} (xs : List α) (start step : Nat) (hJ : 1 ≤ step) :
    (pySliceStep xs start step).head? = xs[start]? := by
  rcases le_or_lt xs.length start with hle | hlt
  · rw [pySliceStep_of_le xs start step hle]
    rw [List.getElem?_eq_none_iff.mpr (by omega : xs.length ≤ start)]
    rfl
  · rw [pySliceStep_cons xs start step hJ hlt]
    simp [List.getElem?_eq_getElem hlt]

theorem pySliceStep_sub_drop {α : Type} (xs : List α) (i k step : Nat) :
    pySliceStep (xs.drop k) i step = pySliceStep xs (k + i) step := by
  rw [pySliceStep, pySliceStep]
  have hlen : (xs.drop k).length - i = xs.length - (k + i) := by
    rw [List.length_drop]
    omega
  rw [hlen]
  have hfun : (fun q => (List.drop k xs)[i + q * step]?)
      = (fun q => xs[k + i + q * step]?) := by
    funext q
    rw [List.getElem?_drop]
    congr 1
    ring
  rw [hfun]

theorem pySliceStep_tail {α : Type} (xs : List α) (i step : Nat) (hJ : 1 ≤ step) :
    (pySliceStep xs i step).tail = pySliceStep (xs.drop step) i step := by
  rw [pySliceStep_sub_drop]
  rcases le_or_lt xs.length i with hle | hlt
  · rw [pySliceStep_of_le xs i step hle, pySliceStep_of_le xs (step + i) step (by omega)]
    rfl
  · rw [pySliceStep_cons xs i step hJ hlt, List.tail_cons]
    congr 1
    omega

theorem pySliceStep_map {α β : Type} (f : α → β) (xs : List α) (start step : Nat) :
    (pySliceStep xs start step).map f = pySliceStep (xs.map f) start step := by
  rw [pySliceStep, pySliceStep, List.length_map, List.map_filterMap]
  have hfun : (fun q => Option.map f xs[start + q * step]?)
      = (fun q => (xs.map f)[start + q * step]?) := by
    funext q
    rw [List.getElem?_map]
  rw [hfun]

theorem pySliceStep_drop_sublist {α : Type} (step : Nat) (hJ : 1 ≤ step) :
    ∀ (fuel : Nat) (xs : List α) (start : Nat), xs.length - start ≤ fuel →
      (pySliceStep xs start step).Sublist (xs.drop start) := by
  intro fuel
  induction fuel with
  | zero =>
    intro xs start h
    rw [pySliceStep_of_le xs start step (by omega)]
    exact List.nil_sublist _
  | succ fuel ih =>
    intro xs start h
    rcases le_or_lt xs.length start with hle | hlt
    · rw [pySliceStep_of_le xs start step hle]
      exact List.nil_sublist _
    · rw [pySliceStep_cons xs start step hJ hlt]
      rw [List.drop_eq_getElem_cons hlt]
      apply List.Sublist.cons₂
      have h1 : (pySliceStep xs (start + step) step).Sublist (xs.drop (start + step)) :=
        ih xs (start + step) (by omega)
      have h2 : (xs.drop (start + step)).Sublist (xs.drop (start + 1)) := by
        have : xs.drop (start + step) = (xs.drop (start + 1)).drop (step - 1) := by
          rw [List.drop_drop]
          congr 1
          omega
        rw [this]
        exact List.drop_sublist _ _
      exact h1.trans h2

theorem pySliceStep_sublist {α : Type} (xs : List α) (start step : Nat) (hJ : 1 ≤ step) :
    (pySliceStep xs start step).Sublist xs :=
  (pySliceStep_drop_sublist step hJ (xs.length - start) xs start (Nat.le_refl _)).trans
    (List.drop_sublist _ _)

theorem sum_tails_le {α : Type} (bs : List (List α)) :
    ((bs.map List.tail).map List.length).sum ≤ (bs.map List.length).sum := by
  induction bs with
  | nil => simp
  | cons b bs ih =>
    simp only [List.map_cons, List.sum_cons]
    have : b.tail.length ≤ b.length := by
      cases b <;> simp
    omega

theorem sum_tails_lt {α : Type} (bs : List (List α)) (h : bs.filterMap List.head? ≠ []) :
    ((bs.map List.tail).map List.length).sum < (bs.map List.length).sum := by
  induction bs with
  | nil => simp [List.filterMap_nil] at h
  | cons b bs ih =>
    cases b with
    | nil =>
      have h' : bs.filterMap List.head? ≠ [] := by
        simpa [List.filterMap_cons, List.head?] using h
      have := ih h'
      simp only [List.map_cons, List.sum_cons, List.tail_nil]
      omega
    | cons x xs =>
      have hle := sum_tails_le bs
      simp only [List.map_cons, List.sum_cons, List.tail_cons, List.length_cons]
      omega

/-- Round-robin concatenation of a family of lists: repeatedly emit the heads of the
nonempty lists, in family order. This formalizes "concatenating the batches in
round-robin order". -/
def rrConcat {α : Type} (bs : List (List α)) : List α :=
  match hne : bs.filterMap List.head? with
  | [] => []
  | x :: rest => (x :: rest) ++ rrConcat (bs.map List.tail)
termination_by (bs.map List.length).sum
decreasing_by exact sum_tails_lt bs (by rw [hne]; intro hc; cases hc)

theorem rrConcat_eq_nil {α : Type} (bs : List (List α))
    (h : bs.filterMap List.head? = []) : rrConcat bs = [] := by
  unfold rrConcat
  split
  · rfl
  · rename_i x rest hne
    rw [h] at hne
    cases hne

theorem rrConcat_eq_append {α : Type} (bs : List (List α))
    (h : bs.filterMap List.head? ≠ []) :
    rrConcat bs = bs.filterMap List.head? ++ rrConcat (bs.map List.tail) := by
  conv_lhs => unfold rrConcat
  split
  · rename_i hnil
    exact absurd hnil h
  · rename_i x rest hne
    rw [hne]

theorem range_filterMap_getElem? {α : Type} (xs : List α) :
    ∀ J : Nat, (List.range J).filterMap (fun i => xs[i]?) = xs.take J := by
  intro J
  induction J with
  | zero => simp
  | succ J ih =>
    rw [List.range_succ, List.filterMap_append, ih, List.take_succ]
    cases hx : xs[J]? <;> simp [List.filterMap_cons, hx]

theorem rrConcat_batches {α : Type} (J : Nat) (hJ : 1 ≤ J) :
    ∀ (fuel : Nat) (xs : List α), xs.length ≤ fuel →
      rrConcat ((List.range J).map (fun i => pySliceStep xs i J)) = xs := by
  intro fuel
  induction fuel with
  | zero =>
    intro xs h
    have hx : xs = [] := List.eq_nil_of_length_eq_zero (by omega)
    subst hx
    apply rrConcat_eq_nil
    rw [List.filterMap_map, List.filterMap_eq_nil_iff]
    intro i _
    simp [Function.comp, pySliceStep_of_le ([] : List α) i J (by simp)]
  | succ fuel ih =>
    intro xs h
    cases hxs : xs with
    | nil =>
      subst hxs
      apply rrConcat_eq_nil
      rw [List.filterMap_map, List.filterMap_eq_nil_iff]
      intro i _
      simp [Function.comp, pySliceStep_of_le ([] : List α) i J (by simp)]
    | cons x rest =>
      rw [← hxs]
      have hheads : ((List.range J).map (fun i => pySliceStep xs i J)).filterMap List.head?
          = xs.take J := by
        rw [List.filterMap_map]
        have hfun : (List.head? ∘ fun i => pySliceStep xs i J) = (fun i => xs[i]?) := by
          funext i
          exact pySliceStep_head? xs i J hJ
        rw [hfun, range_filterMap_getElem?]
      have htails : ((List.range J).map (fun i => pySliceStep xs i J)).map List.tail
          = (List.range J).map (fun i => pySliceStep (xs.drop J) i J) := by
        rw [List.map_map]
        apply List.map_congr_left
        intro i _
        have := pySliceStep_tail xs i J hJ
        simpa [Function.comp] using this
      have htk : xs.take J ≠ [] := by
        rw [hxs]
        cases J with
        | zero => omega
        | succ k => simp
      have hne : ((List.range J).map (fun i => pySliceStep xs i J)).filterMap List.head?
          ≠ [] := by
        rw [hheads]
        exact htk
      rw [rrConcat_eq_append _ hne, hheads, htails,
        ih (xs.drop J) (by rw [List.length_drop]; rw [hxs] at h ⊢; simp at h ⊢; omega)]
      exact List.take_append_drop J xs

/-- C5: resolving `num_jobs` to `J ≥ 1`, the batcher assigns the pipeline at
position `k` to batch `k mod J` at in-batch position `k div J`, every batch is the
slice `eval_cmds[i::J]`, batch sizes are `floor(N/J)` or `ceil(N/J)`, each batch
preserves the input's relative order (it is a sublist), and round-robin
concatenation of the batches reconstructs the original pipeline list. -/
theorem job_batching_round_robin (eval_cmds : List (String × String)) (J : Nat)
    (hJ : 1 ≤ J) :
    ((jobBatches eval_cmds J).map (fun b => b.1)).length = J
    ∧ (∀ i, i < J →
        ((jobBatches eval_cmds J).map (fun b => b.1))[i]?
          = some (pySliceStep (eval_cmds.map (fun p => p.1)) i J))
    ∧ (∀ k, k < eval_cmds.length →
        ∃ b, ((jobBatches eval_cmds J).map (fun b => b.1))[k % J]? = some b
          ∧ b[k / J]? = (eval_cmds.map (fun p => p.1))[k]?)
    ∧ (∀ b ∈ (jobBatches eval_cmds J).map (fun b => b.1),
        b.length = eval_cmds.length / J ∨ b.length = (eval_cmds.length + J - 1) / J)
    ∧ (∀ b ∈ (jobBatches eval_cmds J).map (fun b => b.1),
        b.Sublist (eval_cmds.map (fun p => p.1)))
    ∧ rrConcat ((jobBatches eval_cmds J).map (fun b => b.1))
        = eval_cmds.map (fun p => p.1) := by
  have hbs : (jobBatches eval_cmds J).map (fun b => b.1)
      = (List.range J).map (fun i => pySliceStep (eval_cmds.map (fun p => p.1)) i J) := by
    rw [jobBatches, List.map_map]
    apply List.map_congr_left
    intro i _
    exact pySliceStep_map (fun p => p.1) eval_cmds i J
  have hN : (eval_cmds.map (fun p => p.1)).length = eval_cmds.length := List.length_map _ _
  refine ⟨?_, ?_, ?_, ?_, ?_, ?_⟩
  · rw [hbs, List.length_map, List.length_range]
  · intro i hi
    rw [hbs, List.getElem?_map, List.getElem?_range hi]
    rfl
  · intro k hk
    refine ⟨pySliceStep (eval_cmds.map (fun p => p.1)) (k % J) J, ?_, ?_⟩
    · rw [hbs, List.getElem?_map, List.getElem?_range (Nat.mod_lt k (by omega))]
      rfl
    · rw [pySliceStep_getElem? J hJ (eval_cmds.map (fun p => p.1)).length _ _ _ (by omega)]
      congr 1
      rw [Nat.mod_add_div' k J]
  · intro b hb
    rw [hbs] at hb
    simp only [List.mem_map, List.mem_range] at hb
    obtain ⟨i, hi, rfl⟩ := hb
    rw [pySliceStep_length J hJ ((eval_cmds.map (fun p => p.1)).length - i) _ _ (Nat.le_refl _), hN]
    have hlow : eval_cmds.length / J ≤ (eval_cmds.length - i + J - 1) / J :=
      Nat.div_le_div_right (by omega)
    have hhigh : (eval_cmds.length - i + J - 1) / J ≤ (eval_cmds.length + J - 1) / J :=
      Nat.div_le_div_right (by omega)
    have hceil : (eval_cmds.length + J - 1) / J ≤ eval_cmds.length / J + 1 := by
      rcases Nat.eq_zero_or_pos eval_cmds.length with h0 | h0
      · rw [h0]
        have h1 : (0 + J - 1) / J = 0 := Nat.div_eq_of_lt (by omega)
        have h2 : 0 / J = 0 := Nat.zero_div J
        omega
      · have he : eval_cmds.length + J - 1 = (eval_cmds.length - 1) + J := by omega
        rw [he, Nat.add_div_right _ (by omega)]
        have := Nat.div_le_div_right (c := J) (by omega : eval_cmds.length - 1 ≤ eval_cmds.length)
        omega
    omega
  · intro b hb
    rw [hbs] at hb
    simp only [List.mem_map, List.mem_range] at hb
    obtain ⟨i, hi, rfl⟩ := hb
    exact pySliceStep_sublist _ i J hJ
  · rw [hbs]
    exact rrConcat_batches J hJ (eval_cmds.map (fun p => p.1)).length _ (Nat.le_refl _)

/-- Concrete eval command list used in batching witnesses/counterexamples. -/
def smallEvalCmds : List (String × String) :=
  [("cmd-a", "gsm8k"), ("cmd-b", "gsm8k"), ("cmd-c", "math")]

theorem job_batching_round_robin_witness :
    1 ≤ 2
    ∧ (((jobBatches smallEvalCmds 2).map (fun b => b.1)).length = 2
    ∧ (∀ i, i < 2 →
        ((jobBatches smallEvalCmds 2).map (fun b => b.1))[i]?
          = some (pySliceStep (smallEvalCmds.map (fun p => p.1)) i 2))
    ∧ (∀ k, k < smallEvalCmds.length →
        ∃ b, ((jobBatches smallEvalCmds 2).map (fun b => b.1))[k % 2]? = some b
          ∧ b[k / 2]? = (smallEvalCmds.map (fun p => p.1))[k]?)
    ∧ (∀ b ∈ (jobBatches smallEvalCmds 2).map (fun b => b.1),
        b.length = smallEvalCmds.length / 2
          ∨ b.length = (smallEvalCmds.length + 2 - 1) / 2)
    ∧ (∀ b ∈ (jobBatches smallEvalCmds 2).map (fun b => b.1),
        b.Sublist (smallEvalCmds.map (fun p => p.1)))
    ∧ rrConcat ((jobBatches smallEvalCmds 2).map (fun b => b.1))
        = smallEvalCmds.map (fun p => p.1)) :=
  ⟨by decide, job_batching_round_robin smallEvalCmds 2 (by decide)⟩

/-- C7 (amended): every batch handed to the execution backend is non-empty provided
the resolved job count does not exceed the number of command pipelines (in
particular whenever `num_jobs = -1`); when it does exceed it, trailing batches are
empty — and still submitted. -/
theorem job_batches_nonempty (eval_cmds : List (String × String)) (J : Nat)
    (hJ : 1 ≤ J) (hle : J ≤ eval_cmds.length) :
    ∀ b ∈ jobBatches eval_cmds J, b.1 ≠ [] := by
  intro b hb
  rw [jobBatches] at hb
  simp only [List.mem_map, List.mem_range] at hb
  obtain ⟨i, hi, rfl⟩ := hb
  intro hnil
  have hlen := congrArg List.length hnil
  rw [List.length_map, pySliceStep_length J hJ (eval_cmds.length - i) eval_cmds i
    (Nat.le_refl _), List.length_nil] at hlen
  have h1 : J ≤ eval_cmds.length - i + J - 1 := by omega
  have h2 := (Nat.one_le_div_iff (by omega : 0 < J)).mpr h1
  omega

theorem job_batches_nonempty_witness :
    1 ≤ 2 ∧ 2 ≤ smallEvalCmds.length
    ∧ (∀ b ∈ jobBatches smallEvalCmds 2, b.1 ≠ []) :=
  ⟨by decide, by decide, job_batches_nonempty smallEvalCmds 2 (by decide) (by decide)⟩

/-- C7 counterexample: with three pipelines, a requested job count of two and two
chunk runs, the resolved job count is four; batch index three is empty yet is still
among the batches handed to the backend. -/
theorem job_batches_empty_counterexample :
    resolve_num_jobs 2 3 2 = 4
    ∧ (jobBatches smallEvalCmds (Int.toNat (resolve_num_jobs 2 3 2))).length = 4
    ∧ (jobBatches smallEvalCmds (Int.toNat (resolve_num_jobs 2 3 2)))[3]?
      = some ([], []) := by
  refine ⟨rfl, by decide, by decide⟩

/-! ### Server configuration (from `generate.configure_client` and `eval.eval`) -/

/-- The self-hosted server descriptor assembled by the client configurator. -/
structure ServerConfig where
  model_path : Option String
  server_type : String
  num_gpus : Nat
  num_nodes : Nat
  server_args : String
  server_entrypoint : Option String
  server_port : Nat
deriving DecidableEq, Repr

/-- Python f-string rendering of an optional string (`None` prints as `"None"`). -/
def optStr : Option String → String
  | none => "None"
  | some s => s

/-- The per-task port pre-computation of `generate.generate` (line 641) and of
`eval.eval` (line 294): the fixed default 5000, or a random free port when full-node
exclusivity was not requested. -/
def port_choice (get_random_port : Bool) (free_port : Nat) : Nat :=
  if get_random_port then free_port else 5000

/-- The `get_random_port` flag: random ports are used only without full-node
exclusivity (and when not serving on exactly 8 GPUs). -/
def get_random_port_flag (server_gpus : Option Nat) (exclusive : Bool) : Bool :=
  (decide (server_gpus ≠ some 8)) && !exclusive

/-- Embedding of `generate.configure_client`. `free_port` is the value returned by
the fresh `get_free_port(strategy="random")` call the source makes when hosting —
note the source overwrites the caller-passed `server_port` with it. The assertion
on `server_gpus` is modelled as an error. -/
def configure_client (server_gpus : Option Nat) (server_type : String)
    (server_address : Option String) (server_port : Nat) (server_nodes : Nat)
    (model : Option String) (server_args : String) (server_entrypoint : Option String)
    (extra_arguments : String) (free_port : Nat) :
    Except String (Option ServerConfig × String × String × Option Nat) :=
  match server_address with
  | none =>
    match server_gpus with
    | none => .error "Need to specify server_gpus if hosting the model"
    | some g =>
      .ok (some ⟨model, server_type, g, server_nodes, server_args, server_entrypoint,
            free_port⟩,
        extra_arguments ++ " ++server.server_type=" ++ server_type
          ++ " ++server.host=localhost ++server.port=" ++ natStr free_port ++ " ",
        "localhost:" ++ natStr free_port, some free_port)
  | some addr =>
      .ok (none,
        extra_arguments ++ " ++server.server_type=" ++ server_type
          ++ " ++server.base_url=" ++ addr ++ " ++server.model=" ++ optStr model ++ " ",
        addr, none)

/-- C8 (amended): when no server address is supplied the configurator emits a
ServerConfig and localhost connection arguments on a freshly drawn random free
port, ignoring the exclusivity-based port passed by the caller (the 5000-vs-random
choice of `port_choice` only affects the caller's pre-computation, as in `eval.py`);
when an address is supplied it passes address and model through, leaves the
ServerConfig absent, injects only `base_url`/`model` arguments and no self-hosting
arguments, and returns no port. -/
theorem configure_client_spec (server_type : String) (g : Nat) (server_nodes : Nat)
    (model : Option String) (server_args : String) (server_entrypoint : Option String)
    (extra_arguments : String) (free_port : Nat) :
    (∀ p : Nat,
      configure_client (some g) server_type none p server_nodes model server_args
          server_entrypoint extra_arguments free_port
        = .ok (some ⟨model, server_type, g, server_nodes, server_args, server_entrypoint,
              free_port⟩,
            extra_arguments ++ " ++server.server_type=" ++ server_type
              ++ " ++server.host=localhost ++server.port=" ++ natStr free_port ++ " ",
            "localhost:" ++ natStr free_port, some free_port))
    ∧ (∀ p p' : Nat,
        configure_client (some g) server_type none p server_nodes model server_args
            server_entrypoint extra_arguments free_port
          = configure_client (some g) server_type none p' server_nodes model server_args
              server_entrypoint extra_arguments free_port)
    ∧ (∀ p : Nat,
        configure_client none server_type none p server_nodes model server_args
            server_entrypoint extra_arguments free_port
          = .error "Need to specify server_gpus if hosting the model")
    ∧ (∀ (gpus : Option Nat) (addr : String) (p : Nat),
        configure_client gpus server_type (some addr) p server_nodes model server_args
            server_entrypoint extra_arguments free_port
          = .ok (none,
              extra_arguments ++ " ++server.server_type=" ++ server_type
                ++ " ++server.base_url=" ++ addr ++ " ++server.model=" ++ optStr model
                ++ " ",
              addr, none))
    ∧ port_choice true free_port = free_port
    ∧ port_choice false free_port = 5000 :=
  ⟨fun _ => rfl, fun _ _ => rfl, fun _ => rfl, fun _ _ _ => rfl, rfl, rfl⟩

/-- C8 counterexample: with full-node exclusivity requested the caller pre-computes
port 5000, but the configurator still hosts on the freshly drawn random port 4321,
so the allocated port is not the fixed default. -/
theorem configure_client_port_counterexample :
    port_choice (get_random_port_flag (some 8) true) 4321 = 5000
    ∧ configure_client (some 8) "vllm" none
        (port_choice (get_random_port_flag (some 8) true) 4321) 1 (some "m") "" none
        "" 4321
      = .ok (some ⟨some "m", "vllm", 8, 1, "", none, 4321⟩,
          " ++server.server_type=vllm ++server.host=localhost ++server.port=4321 ",
          "localhost:4321", some 4321)
    ∧ (4321 : Nat) ≠ 5000 := by
  refine ⟨rfl, rfl, by decide⟩

/-! ### Self-evaluating generation types (from `generate.get_rm_cmd`,
`get_math_judge_cmd`, `get_genselect_cmd`) -/

/-- Python f-string rendering of an optional number (`None` prints as `"None"`). -/
def pyOptNat : Option Nat → String
  | none => "None"
  | some v => natStr v

/-- Embedding of `generate.get_rm_cmd` (the reward-model command builder); the
`raise ValueError` is an error value, so no command is produced on that path. -/
def get_rm_cmd (output_dir extra_arguments : String) (random_seed : Option Nat)
    (eval_args : Option String) (chunk_id num_chunks : Option Nat)
    (postprocess_cmd : Option String) (script : String) ( output_prefix : String) :
    Except String (String × Option String) :=
  match eval_args with
  | some _ => .error "Cannot specify eval_args for reward model"
  | none =>
    let cmd := "python -m " ++ script ++ " "
      ++ "    ++skip_filled=True "
      ++ "    ++output_dir=" ++ output_dir ++ " "
      ++ "    ++random_seed=" ++ pyOptNat random_seed ++ " "
    .ok (cmd ++ " " ++ extra_arguments ++ " ", postprocess_cmd)

/-- Embedding of `generate.get_math_judge_cmd`. -/
def get_math_judge_cmd (output_dir extra_arguments : String) (random_seed : Option Nat)
    (eval_args : Option String) (chunk_id num_chunks : Option Nat)
    (postprocess_cmd : Option String) (script : String) ( output_prefix : String) :
    Except String (String × Option String) :=
  match eval_args with
  | some _ => .error "Cannot specify eval_args for math judge"
  | none =>
    let cmd := "python -m " ++ script ++ " "
      ++ "    ++skip_filled=True "
      ++ "    ++output_dir=" ++ output_dir ++ " "
      ++ "    ++random_seed=" ++ pyOptNat random_seed ++ " "
    .ok (cmd ++ " " ++ extra_arguments ++ " ", postprocess_cmd)

/-- Embedding of `generate.get_genselect_cmd`. -/
def get_genselect_cmd (output_dir extra_arguments : String) (random_seed : Option Nat)
    (eval_args : Option String) (chunk_id num_chunks : Option Nat)
    (postprocess_cmd : Option String) (script : String) ( output_prefix : String) :
    Except String (String × Option String) :=
  match eval_args with
  | some _ => .error "Cannot specify eval_args for genselect"
  | none =>
    let cmd := "python -m " ++ script ++ " "
      ++ "    ++skip_filled=True "
      ++ "    ++input_dir=" ++ output_dir ++ "/comparison_instances "
      ++ "    ++output_dir=" ++ output_dir ++ " "
      ++ "    ++inference.random_seed=" ++ pyOptNat random_seed ++ " "
      ++ "    ++inference.temperature=0.7 "
      ++ "    ++inference.tokens_to_generate=2048 "
      ++ "    ++inference.top_k=0 "
      ++ "    ++inference.top_p=0.95 "
    .ok (cmd ++ " " ++ extra_arguments ++ " ", postprocess_cmd)

/-- C9: for each of the three self-evaluating generation types (reward, math judge,
genselect), supplying external eval args makes the command builder fail with its
configuration error, and no command pair is produced on that path. -/
theorem self_eval_types_reject_eval_args (output_dir extra_arguments : String)
    (random_seed : Option Nat) (eval_args : Option String) (chunk_id num_chunks : Option Nat)
    (postprocess_cmd : Option String) (script output_prefix : String) (e : String)
    (h : eval_args = some e) :
    get_rm_cmd output_dir extra_arguments random_seed eval_args chunk_id num_chunks
        postprocess_cmd script output_prefix
      = .error "Cannot specify eval_args for reward model"
    ∧ get_math_judge_cmd output_dir extra_arguments random_seed eval_args chunk_id
        num_chunks postprocess_cmd script output_prefix
      = .error "Cannot specify eval_args for math judge"
    ∧ get_genselect_cmd output_dir extra_arguments random_seed eval_args chunk_id
        num_chunks postprocess_cmd script output_prefix
      = .error "Cannot specify eval_args for genselect"
    ∧ (∀ res, get_rm_cmd output_dir extra_arguments random_seed eval_args chunk_id
          num_chunks postprocess_cmd script output_prefix = .ok res → False)
    ∧ (∀ res, get_math_judge_cmd output_dir extra_arguments random_seed eval_args chunk_id
          num_chunks postprocess_cmd script output_prefix = .ok res → False)
    ∧ (∀ res, get_genselect_cmd output_dir extra_arguments random_seed eval_args chunk_id
          num_chunks postprocess_cmd script output_prefix = .ok res → False) := by
  subst h
  refine ⟨rfl, rfl, rfl, ?_, ?_, ?_⟩ <;> intro res hres <;> exact Except.noConfusion hres

/-- Witness for C9 at a concrete instance. -/
theorem self_eval_types_reject_eval_args_witness :
    get_rm_cmd "/out" "++x=1" (some 3) (some "++eval_type=math") none none none
        "nemo_skills.inference.reward_model" "output"
      = .error "Cannot specify eval_args for reward model" :=
  (self_eval_types_reject_eval_args "/out" "++x=1" (some 3) (some "++eval_type=math")
    none none none "nemo_skills.inference.reward_model" "output" "++eval_type=math" rfl).1

/-! ### Sandbox /execute endpoint (from `local_sandbox_server.py`) -/

/-- stdout/stderr captured from the worker subprocess. -/
structure SandboxResult where
  stdout : String
  stderr : String
deriving DecidableEq, Repr

/-- The JSON record the endpoint returns (the timeout branch carries no traceback
field, modelled as `none`; the completed branch never sets one either). -/
structure SandboxResponse where
  process_status : String
  stdout : String
  stderr : String
  traceback : Option String
deriving DecidableEq, Repr

/-- Embedding of the `/execute` endpoint of `local_sandbox_server.py` after
`process.join(timeout)`: `finished` tells whether the subprocess ended within the
caller-supplied timeout (`process.is_alive()` negated), `result` is the captured
output. The returned Bool records whether `process.kill()` was invoked. The timeout
branch returns the literal body `\x7b"process_status": "timeout", "stdout": "Timed
out", "stderr": "Timed out"\x7d`. -/
def executeEndpoint (finished : Bool) (result : SandboxResult) : SandboxResponse × Bool :=
  if finished then
    ({ process_status := "completed", stdout := result.stdout, stderr := result.stderr,
       traceback := none }, false)
  else
    ({ process_status := "timeout", stdout := "Timed out", stderr := "Timed out",
       traceback := none }, true)

/-- C10 counterexample: on timeout the endpoint reports stdout and stderr `"Timed
out"`, not `"TimeoutError"`, and the response has no traceback field at all. -/
theorem sandbox_timeout_counterexample :
    (executeEndpoint false ⟨"partial out", "partial err"⟩).1.process_status = "timeout"
    ∧ (executeEndpoint false ⟨"partial out", "partial err"⟩).1.stdout = "Timed out"
    ∧ (executeEndpoint false ⟨"partial out", "partial err"⟩).1.stdout ≠ "TimeoutError"
    ∧ (executeEndpoint false ⟨"partial out", "partial err"⟩).1.stderr ≠ "TimeoutError"
    ∧ (executeEndpoint false ⟨"partial out", "partial err"⟩).1.traceback = none := by
  exact ⟨rfl, rfl, by decide, by decide, rfl⟩

/-- C10 (amended): when the executed code exceeds the caller-supplied timeout the
endpoint kills the subprocess and returns process_status "timeout" with stdout and
stderr both equal to the string "Timed out" and no traceback field; within the
timeout it returns the captured output with process_status "completed" and does not
kill. -/
theorem sandbox_timeout_response (result : SandboxResult) :
    executeEndpoint false result
      = ({ process_status := "timeout", stdout := "Timed out", stderr := "Timed out",
           traceback := none }, true)
    ∧ executeEndpoint true result
      = ({ process_status := "completed", stdout := result.stdout, stderr := result.stderr,
           traceback := none }, false) :=
  ⟨rfl, rfl⟩
